import Mathlib

/-!
# time_series_smooth: integer double exponential smoothing

A shallow embedding of `time_series_smooth.c` (J. F. Brady, 2019).

* C `int` is a 32-bit two's complement integer.  Values are carried as `Int`
  and every arithmetic operation on `int` operands is followed by `wrap32`,
  the reduction into `[-2^31, 2^31)`.
* C `/` on `int` truncates toward zero: `Int.tdiv`.
* `gettimeofday` is replaced by an explicit argument `tv_sec`, the seconds
  field of the clock reading.  `tv_sec` has type `time_t`, which is wider than
  `int`; the elapsed-time difference is computed at that width and is taken
  exactly, and the assignment to the `int` field `last_update_time` narrows
  with `wrap32`.
* C leaves division by zero undefined, while `Int.tdiv a 0 = 0`.  Every
  theorem below that depends on a quotient assumes `n_alpha >= 1`, the range
  that `main` admits; under it no divisor is zero.
* `main` is embedded as far as it decides the record passed to the calls: the
  option loop and the exit on the error flag.
* The C function always returns `0`; its result is the mutated record, which
  the embedding returns as a new value.  The forecast is the field `ft`.
-/

namespace TimeSeriesSmooth

/-! ## Machine integers -/

/-- Largest C `int` (`INT32_MAX` of `stdint.h`). -/
def INT32_MAX : Int := 2147483647

/-- Smallest C `int` (`INT32_MIN` of `stdint.h`). -/
def INT32_MIN : Int := -2147483647 - 1

/-- Membership in the signed 32-bit range. -/
def InInt32 (z : Int) : Prop := INT32_MIN ≤ z ∧ z ≤ INT32_MAX

instance (z : Int) : Decidable (InInt32 z) := by
  unfold InInt32; exact inferInstance

/-- Reduction of an integer into the signed 32-bit range (two's complement). -/
def wrap32 (z : Int) : Int := (z + 2147483648) % 4294967296 - 2147483648

/-- C `a + b` on `int`. -/
def add32 (a b : Int) : Int := wrap32 (a + b)

/-- C `a - b` on `int`. -/
def sub32 (a b : Int) : Int := wrap32 (a - b)

/-- C `a * b` on `int`. -/
def mul32 (a b : Int) : Int := wrap32 (a * b)

/-- C `a / b` on `int`: the quotient truncates toward zero. -/
def div32 (a b : Int) : Int := wrap32 (Int.tdiv a b)

/-! ## Data structure -/

/-- The record `EXP_SMOOTH_DATA`; every field is a C `int`. -/
structure EXP_SMOOTH_DATA where
  n_alpha : Int
  stx1 : Int
  stx2 : Int
  n : Int
  ft : Int
  reset_time : Int
  last_update_time : Int
  deriving DecidableEq, Repr

/-- Every field of the record holds a value of type `int`. -/
def EXP_SMOOTH_DATA.WellTyped (data : EXP_SMOOTH_DATA) : Prop :=
  InInt32 data.n_alpha ∧ InInt32 data.stx1 ∧ InInt32 data.stx2 ∧ InInt32 data.n ∧
  InInt32 data.ft ∧ InInt32 data.reset_time ∧ InInt32 data.last_update_time

instance (data : EXP_SMOOTH_DATA) : Decidable data.WellTyped := by
  unfold EXP_SMOOTH_DATA.WellTyped; exact inferInstance

/-- The record as `main` prepares it: `memset` to zero, then `n_alpha` and
`reset_time` set from the defaults or the options. -/
def init_data (n_alpha reset_time : Int) : EXP_SMOOTH_DATA :=
  { n_alpha := n_alpha, stx1 := 0, stx2 := 0, n := 0, ft := 0,
    reset_time := reset_time, last_update_time := 0 }

/-! ## The smoothing function, stage by stage -/

/-- Lines 317-324, "Check xt range": cap `xt` at `INT32_MAX / n_alpha`, then
raise it to `INT32_MIN / n_alpha`. -/
def check_xt_range (n_alpha xt : Int) : Int :=
  let xt := if xt > div32 INT32_MAX n_alpha then div32 INT32_MAX n_alpha else xt
  if xt < div32 INT32_MIN n_alpha then div32 INT32_MIN n_alpha else xt

/-- The test of lines 334-335: the time since the last update exceeds
`reset_time`. -/
def stale (data : EXP_SMOOTH_DATA) (tv_sec : Int) : Bool :=
  decide (tv_sec - data.last_update_time > data.reset_time)

/-- Lines 334-343: clear `n` when the record is stale, then store the time of
this update. -/
def reset_check (data : EXP_SMOOTH_DATA) (tv_sec : Int) : EXP_SMOOTH_DATA :=
  let data := if stale data tv_sec then { data with n := 0 } else data
  { data with last_update_time := wrap32 tv_sec }

/-- Lines 348-380: double exponential smoothing when `n >= n_alpha`, running
average otherwise.  `xt` is the range-checked observation. -/
def update (data : EXP_SMOOTH_DATA) (xt : Int) : EXP_SMOOTH_DATA :=
  if data.n ≥ data.n_alpha then
    let data := { data with
      stx1 := div32 (add32 xt (mul32 (sub32 data.n_alpha 1) data.stx1)) data.n_alpha }
    let data := { data with
      stx2 := div32 (add32 data.stx1 (mul32 (sub32 data.n_alpha 1) data.stx2)) data.n_alpha }
    if data.n_alpha > 1 then
      { data with
        ft := add32 (sub32 (mul32 2 data.stx1) data.stx2)
                (div32 (sub32 data.stx1 data.stx2) (sub32 data.n_alpha 1)) }
    else
      { data with ft := data.stx1 }
  else
    let data := { data with n := add32 data.n 1 }
    let data := { data with
      stx1 := div32 (add32 xt (mul32 (sub32 data.n 1) data.stx1)) data.n }
    let data := { data with stx2 := data.stx1 }
    { data with ft := data.stx1 }

/-- The function `time_series_smooth(data, xt)` called when the clock reads
`tv_sec`. -/
def time_series_smooth (data : EXP_SMOOTH_DATA) (xt tv_sec : Int) : EXP_SMOOTH_DATA :=
  update (reset_check data tv_sec) (check_xt_range data.n_alpha xt)

/-- The exact value, before reduction to 32 bits, of every `int` operation
that `check_xt_range` evaluates. -/
def check_xt_range_ops (n_alpha : Int) : List Int :=
  [Int.tdiv INT32_MAX n_alpha, Int.tdiv INT32_MIN n_alpha]

/-- The exact value, before reduction to 32 bits, of every `int` operation
that `update` evaluates on the branch it takes, in evaluation order; the
operands are the values the machine holds.  The subexpression `n_alpha - 1`,
which the steady-state branch evaluates three times, is listed once. -/
def update_ops (data : EXP_SMOOTH_DATA) (xt : Int) : List Int :=
  if data.n ≥ data.n_alpha then
    let k1 := sub32 data.n_alpha 1
    let stx1 := div32 (add32 xt (mul32 k1 data.stx1)) data.n_alpha
    let stx2 := div32 (add32 stx1 (mul32 k1 data.stx2)) data.n_alpha
    [ data.n_alpha - 1, k1 * data.stx1, xt + mul32 k1 data.stx1,
      Int.tdiv (add32 xt (mul32 k1 data.stx1)) data.n_alpha,
      k1 * data.stx2, stx1 + mul32 k1 data.stx2,
      Int.tdiv (add32 stx1 (mul32 k1 data.stx2)) data.n_alpha ] ++
    (if data.n_alpha > 1 then
      [ 2 * stx1, mul32 2 stx1 - stx2, stx1 - stx2,
        Int.tdiv (sub32 stx1 stx2) k1,
        sub32 (mul32 2 stx1) stx2 + div32 (sub32 stx1 stx2) k1 ]
    else [])
  else
    let n := add32 data.n 1
    let n1 := sub32 n 1
    [ data.n + 1, n - 1, n1 * data.stx1, xt + mul32 n1 data.stx1,
      Int.tdiv (add32 xt (mul32 n1 data.stx1)) n ]

/-- The exact results of the `int` operations of one call.  The elapsed-time
difference is `time_t` arithmetic and is not among them. -/
def time_series_smooth_ops (data : EXP_SMOOTH_DATA) (xt tv_sec : Int) : List Int :=
  check_xt_range_ops data.n_alpha ++
    update_ops (reset_check data tv_sec) (check_xt_range data.n_alpha xt)

/-! ## The read loop of `main`

Each record of the input supplies an observation; the clock reading of the
call is paired with it. -/

/-- The record after the calls for a list of `(xt, tv_sec)` pairs. -/
def smooth_run (data : EXP_SMOOTH_DATA) : List (Int × Int) → EXP_SMOOTH_DATA
  | [] => data
  | (xt, tv_sec) :: rest => smooth_run (time_series_smooth data xt tv_sec) rest

/-- The forecasts `data.ft` that the loop prints, one per call. -/
def forecasts (data : EXP_SMOOTH_DATA) : List (Int × Int) → List Int
  | [] => []
  | (xt, tv_sec) :: rest =>
    (time_series_smooth data xt tv_sec).ft ::
      forecasts (time_series_smooth data xt tv_sec) rest

/-- The exact results of the `int` operations of all calls of a run. -/
def run_ops (data : EXP_SMOOTH_DATA) : List (Int × Int) → List Int
  | [] => []
  | (xt, tv_sec) :: rest =>
    time_series_smooth_ops data xt tv_sec ++
      run_ops (time_series_smooth data xt tv_sec) rest

/-- No call of the run finds the record stale. -/
def no_reset (data : EXP_SMOOTH_DATA) : List (Int × Int) → Bool
  | [] => true
  | (xt, tv_sec) :: rest =>
    !stale data tv_sec && no_reset (time_series_smooth data xt tv_sec) rest

/-- No call after the first finds the record stale. -/
def no_reset_between (data : EXP_SMOOTH_DATA) : List (Int × Int) → Bool
  | [] => true
  | (xt, tv_sec) :: rest => no_reset (time_series_smooth data xt tv_sec) rest

/-! ## The formulas of the specification, over the integers -/

/-- Saturation as the specification words it: clamp into
`[INT32_MIN / k, INT32_MAX / k]`. -/
def clamp (k x : Int) : Int :=
  min (max x (Int.tdiv INT32_MIN k)) (Int.tdiv INT32_MAX k)

/-- Steady state, first statistic: `(c + (k-1)*stx1) / k`. -/
def steady_stx1 (k c stx1 : Int) : Int := Int.tdiv (c + (k - 1) * stx1) k

/-- Steady state, second statistic: `(stx1 + (k-1)*stx2) / k`. -/
def steady_stx2 (k stx1 stx2 : Int) : Int := Int.tdiv (stx1 + (k - 1) * stx2) k

/-- Steady state, forecast: `2*stx1 - stx2 + (stx1 - stx2)/(k-1)` when
`k > 1`, and `stx1` when `k = 1`. -/
def steady_forecast (k stx1 stx2 : Int) : Int :=
  if k > 1 then 2 * stx1 - stx2 + Int.tdiv (stx1 - stx2) (k - 1) else stx1

/-- Warm-up statistic after `n` earlier samples: `(c + n*stx1) / (n+1)`. -/
def warmup_stx1 (n c stx1 : Int) : Int := Int.tdiv (c + n * stx1) (n + 1)

/-- None of the products, sums and differences of the steady-state formulas
leaves the signed 32-bit range. -/
def steady_fits (k c stx1 stx2 : Int) : Prop :=
  InInt32 ((k - 1) * stx1) ∧ InInt32 (c + (k - 1) * stx1) ∧
  InInt32 ((k - 1) * stx2) ∧
  InInt32 (steady_stx1 k c stx1 + (k - 1) * stx2) ∧
  (k > 1 →
    InInt32 (2 * steady_stx1 k c stx1) ∧
    InInt32 (2 * steady_stx1 k c stx1 - steady_stx2 k (steady_stx1 k c stx1) stx2) ∧
    InInt32 (steady_stx1 k c stx1 - steady_stx2 k (steady_stx1 k c stx1) stx2) ∧
    InInt32 (steady_forecast k (steady_stx1 k c stx1)
      (steady_stx2 k (steady_stx1 k c stx1) stx2)))

instance (k c stx1 stx2 : Int) : Decidable (steady_fits k c stx1 stx2) := by
  unfold steady_fits; exact inferInstance

/-- Neither the product nor the sum of the warm-up formula leaves the signed
32-bit range. -/
def warmup_fits (n c stx1 : Int) : Prop :=
  InInt32 (n * stx1) ∧ InInt32 (c + n * stx1)

instance (n c stx1 : Int) : Decidable (warmup_fits n c stx1) := by
  unfold warmup_fits; exact inferInstance

/-! ## Divisors -/

/-- The divisors of the divisions that `check_xt_range` evaluates. -/
def check_xt_range_divisors (n_alpha : Int) : List Int := [n_alpha, n_alpha]

/-- The divisors of the divisions that `update` evaluates on the branch it
takes: `n_alpha` twice and, only when `n_alpha > 1`, `n_alpha - 1` in the
steady state; the incremented `n` in warm-up. -/
def update_divisors (data : EXP_SMOOTH_DATA) : List Int :=
  if data.n ≥ data.n_alpha then
    [data.n_alpha, data.n_alpha] ++
      (if data.n_alpha > 1 then [sub32 data.n_alpha 1] else [])
  else
    [add32 data.n 1]

/-- The divisors of all divisions of one call. -/
def time_series_smooth_divisors (data : EXP_SMOOTH_DATA) (tv_sec : Int) : List Int :=
  check_xt_range_divisors data.n_alpha ++ update_divisors (reset_check data tv_sec)

/-! ## Option handling of `main`

`getopt`, `strtol` and `strcpy` belong to the C library.  An option is
represented by its letter and, for `-n`, `-r` and `-t`, by the `long` that
`strtol` returns for its argument; for `-w` by the length of the file name.
`long` is wider than `int`, so the assignments of lines 128, 143 and 158
narrow the value with `wrap32`. -/

/-- Default window, `#define N_ALPHA 10`. -/
def N_ALPHA : Int := 10

/-- Default reset interval, `#define RESET_TIME 5`. -/
def RESET_TIME : Int := 5

/-- The size of the buffer `char out_file_name[100]`. -/
def OUT_FILE_NAME_SIZE : Nat := 100

/-- One option of the command line as the `switch` of `main` sees it. -/
inductive CmdOption where
  | h
  | n (value : Int)
  | r (value : Int)
  | t (value : Int)
  | w (length : Nat)
  | other
  deriving DecidableEq, Repr

/-- The variables of `main` that the option loop writes.  `overrun` records
that a `strcpy` wrote past the end of `out_file_name`; from then on the C
program has no defined behaviour. -/
structure MainState where
  data : EXP_SMOOTH_DATA
  errorFlag : Bool
  reset_count : Int
  out_file_set : Int
  overrun : Bool
  deriving DecidableEq, Repr

/-- Lines 84-99: `errorFlag = false`, `reset_count = 0`, `out_file_set = 0`,
the record zeroed and the two defaults stored. -/
def main_init : MainState :=
  { data := init_data N_ALPHA RESET_TIME, errorFlag := false, reset_count := 0,
    out_file_set := 0, overrun := false }

/-- One pass through the `switch` of lines 105-188.  In the case `-w` the
call `strcpy(out_file_name, optarg)` copies the name and its terminator, which
fit the buffer when the name is shorter than `OUT_FILE_NAME_SIZE`; `strcpy`
returns its destination, never 0, so `out_file_set` becomes 1.  An option that
`getopt` does not know falls to `default`. -/
def get_option (s : MainState) : CmdOption → MainState
  | .h => { s with errorFlag := true }
  | .n value =>
    let s := { s with data := { s.data with n_alpha := wrap32 value } }
    let s := if s.data.n_alpha = 0 then { s with errorFlag := true } else s
    if s.data.n_alpha < 0 then { s with errorFlag := true } else s
  | .r value =>
    let s := { s with reset_count := wrap32 value }
    let s := if s.reset_count = 0 then { s with errorFlag := true } else s
    if s.reset_count < 0 then { s with errorFlag := true } else s
  | .t value =>
    let s := { s with data := { s.data with reset_time := wrap32 value } }
    let s := if s.data.reset_time = 0 then { s with errorFlag := true } else s
    if s.data.reset_time < 0 then { s with errorFlag := true } else s
  | .w length =>
    { s with out_file_set := 1,
             overrun := s.overrun || decide (OUT_FILE_NAME_SIZE ≤ length) }
  | .other => s

/-- The option loop of lines 103-189. -/
def get_options (opts : List CmdOption) : MainState :=
  opts.foldl get_option main_init

/-- What `main` does after the option loop. -/
inductive Outcome where
  | undefined
  | exit
  | run (data : EXP_SMOOTH_DATA)
  deriving DecidableEq, Repr

/-- Lines 193-196: `exit(1)` when the error flag is set; otherwise the record
with which the read loop calls `time_series_smooth`.  After a buffer overrun
nothing is defined.  The later exits for a missing or unreadable input file do
not depend on the options. -/
def main_setup (opts : List CmdOption) : Outcome :=
  if (get_options opts).overrun then .undefined
  else if (get_options opts).errorFlag then .exit
  else .run (get_options opts).data

/-! ## What the options ask for -/

/-- An option that leaves the error flag alone: not `-h`, and for `-n`, `-r`,
`-t` a stored value of at least 1. -/
def accepted : CmdOption → Bool
  | .h => false
  | .n value => decide (1 ≤ wrap32 value)
  | .r value => decide (1 ≤ wrap32 value)
  | .t value => decide (1 ≤ wrap32 value)
  | .w _ => true
  | .other => true

/-- A `-w` option whose file name does not fit the buffer. -/
def overruns : CmdOption → Bool
  | .w length => decide (OUT_FILE_NAME_SIZE ≤ length)
  | _ => false

/-- The window after one more option. -/
def next_n_alpha (n_alpha : Int) : CmdOption → Int
  | .n value => wrap32 value
  | _ => n_alpha

/-- The reset interval after one more option. -/
def next_reset_time (reset_time : Int) : CmdOption → Int
  | .t value => wrap32 value
  | _ => reset_time

/-- The window stored by the last `-n` option, the default without one. -/
def final_n_alpha (opts : List CmdOption) : Int := opts.foldl next_n_alpha N_ALPHA

/-- The reset interval stored by the last `-t` option, the default without
one. -/
def final_reset_time (opts : List CmdOption) : Int := opts.foldl next_reset_time RESET_TIME

/-! ## Operations of the two parts of `update` -/

/-- The exact results of the `int` operations of the assignments to `stx1`
and `stx2` (lines 350-353 in the steady state, lines 375-377 in warm-up). -/
def update_stx_ops (data : EXP_SMOOTH_DATA) (xt : Int) : List Int :=
  if data.n ≥ data.n_alpha then
    let k1 := sub32 data.n_alpha 1
    let stx1 := div32 (add32 xt (mul32 k1 data.stx1)) data.n_alpha
    [ data.n_alpha - 1, k1 * data.stx1, xt + mul32 k1 data.stx1,
      Int.tdiv (add32 xt (mul32 k1 data.stx1)) data.n_alpha,
      k1 * data.stx2, stx1 + mul32 k1 data.stx2,
      Int.tdiv (add32 stx1 (mul32 k1 data.stx2)) data.n_alpha ]
  else
    let n := add32 data.n 1
    let n1 := sub32 n 1
    [ data.n + 1, n - 1, n1 * data.stx1, xt + mul32 n1 data.stx1,
      Int.tdiv (add32 xt (mul32 n1 data.stx1)) n ]

/-- The exact results of the `int` operations of the assignment to `ft`
(lines 357-361); warm-up and a window of one copy `stx1` without arithmetic. -/
def update_ft_ops (data : EXP_SMOOTH_DATA) (xt : Int) : List Int :=
  if data.n ≥ data.n_alpha then
    let k1 := sub32 data.n_alpha 1
    let stx1 := div32 (add32 xt (mul32 k1 data.stx1)) data.n_alpha
    let stx2 := div32 (add32 stx1 (mul32 k1 data.stx2)) data.n_alpha
    if data.n_alpha > 1 then
      [ 2 * stx1, mul32 2 stx1 - stx2, stx1 - stx2,
        Int.tdiv (sub32 stx1 stx2) k1,
        sub32 (mul32 2 stx1) stx2 + div32 (sub32 stx1 stx2) k1 ]
    else []
  else []

/-- The products and sums of the two steady-state statistics stay in the
signed 32-bit range. -/
def steady_stx_fits (k c stx1 stx2 : Int) : Prop :=
  InInt32 ((k - 1) * stx1) ∧ InInt32 (c + (k - 1) * stx1) ∧
  InInt32 ((k - 1) * stx2) ∧
  InInt32 (steady_stx1 k c stx1 + (k - 1) * stx2)

/-- The intermediate values of the steady-state forecast expression on the
new statistics stay in the signed 32-bit range. -/
def forecast_fits (k stx1 stx2 : Int) : Prop :=
  InInt32 (2 * stx1) ∧ InInt32 (2 * stx1 - stx2) ∧ InInt32 (stx1 - stx2) ∧
  InInt32 (2 * stx1 - stx2 + Int.tdiv (stx1 - stx2) (k - 1))

instance (k c stx1 stx2 : Int) : Decidable (steady_stx_fits k c stx1 stx2) := by
  unfold steady_stx_fits; exact inferInstance

instance (k stx1 stx2 : Int) : Decidable (forecast_fits k stx1 stx2) := by
  unfold forecast_fits; exact inferInstance

/-- Membership in the band `[INT32_MIN / k, INT32_MAX / k]`. -/
def InBand (k z : Int) : Prop :=
  Int.tdiv INT32_MIN k ≤ z ∧ z ≤ Int.tdiv INT32_MAX k

instance (k z : Int) : Decidable (InBand k z) := by
  unfold InBand; exact inferInstance

/-! ## The same computation over the integers

The statements of `check_xt_range` and `update` with every `int` operation
replaced by the operation on unbounded integers.  The staleness check and the
narrowing store of the clock reading are those of `reset_check`. -/

/-- The range check evaluated without reduction to 32 bits. -/
def check_xt_range_exact (n_alpha xt : Int) : Int :=
  let xt := if xt > Int.tdiv INT32_MAX n_alpha then Int.tdiv INT32_MAX n_alpha else xt
  if xt < Int.tdiv INT32_MIN n_alpha then Int.tdiv INT32_MIN n_alpha else xt

/-- The update evaluated without reduction to 32 bits. -/
def update_exact (data : EXP_SMOOTH_DATA) (xt : Int) : EXP_SMOOTH_DATA :=
  if data.n ≥ data.n_alpha then
    let data := { data with
      stx1 := Int.tdiv (xt + (data.n_alpha - 1) * data.stx1) data.n_alpha }
    let data := { data with
      stx2 := Int.tdiv (data.stx1 + (data.n_alpha - 1) * data.stx2) data.n_alpha }
    if data.n_alpha > 1 then
      { data with
        ft := 2 * data.stx1 - data.stx2
                + Int.tdiv (data.stx1 - data.stx2) (data.n_alpha - 1) }
    else
      { data with ft := data.stx1 }
  else
    let data := { data with n := data.n + 1 }
    let data := { data with
      stx1 := Int.tdiv (xt + (data.n - 1) * data.stx1) data.n }
    let data := { data with stx2 := data.stx1 }
    { data with ft := data.stx1 }

/-- One call evaluated without reduction to 32 bits. -/
def time_series_smooth_exact (data : EXP_SMOOTH_DATA) (xt tv_sec : Int) :
    EXP_SMOOTH_DATA :=
  update_exact (reset_check data tv_sec) (check_xt_range_exact data.n_alpha xt)

/-- A run evaluated without reduction to 32 bits. -/
def smooth_run_exact (data : EXP_SMOOTH_DATA) : List (Int × Int) → EXP_SMOOTH_DATA
  | [] => data
  | (xt, tv_sec) :: rest =>
    smooth_run_exact (time_series_smooth_exact data xt tv_sec) rest

/-- The forecasts of a run evaluated without reduction to 32 bits. -/
def forecasts_exact (data : EXP_SMOOTH_DATA) : List (Int × Int) → List Int
  | [] => []
  | (xt, tv_sec) :: rest =>
    (time_series_smooth_exact data xt tv_sec).ft ::
      forecasts_exact (time_series_smooth_exact data xt tv_sec) rest

/-! ## Records that a run can reach -/

/-- A bound on `|stx1 - stx2|` that every call re-establishes.  It is needed
for the windows 2 and 3 only; for the other windows the band gives it. -/
def lag_bound (k : Int) : Int :=
  if k = 2 then 805306368 else if k = 3 then 600000000 else 4294967296

/-- An invariant of the records of a run with window `k`: the counter is
within `0 .. k`, both statistics lie in the band, and they differ by at most
`lag_bound k`. -/
def Inv (k : Int) (data : EXP_SMOOTH_DATA) : Prop :=
  data.n_alpha = k ∧ 0 ≤ data.n ∧ data.n ≤ k ∧
  InBand k data.stx1 ∧ InBand k data.stx2 ∧
  -lag_bound k ≤ data.stx1 - data.stx2 ∧ data.stx1 - data.stx2 ≤ lag_bound k

instance (k : Int) (data : EXP_SMOOTH_DATA) : Decidable (Inv k data) := by
  unfold Inv; exact inferInstance

/-! ## The running average of the specification -/

/-- The truncating running average: from the average `a` of `n` samples, each
further sample `c` gives `(c + n * a) / (n + 1)`. -/
def running_avg_from : Int → Int → List Int → Int
  | _, a, [] => a
  | n, a, c :: cs => running_avg_from (n + 1) (Int.tdiv (c + n * a) (n + 1)) cs

/-- The truncating running average of a list of samples. -/
def running_avg (cs : List Int) : Int := running_avg_from 0 0 cs

/-- The clamped observations of a run. -/
def clamped (k : Int) (obs : List (Int × Int)) : List Int :=
  obs.map fun p => clamp k p.1

/-- The record with `stx1`, `stx2` and `ft` negated. -/
def negate (data : EXP_SMOOTH_DATA) : EXP_SMOOTH_DATA :=
  { data with stx1 := -data.stx1, stx2 := -data.stx2, ft := -data.ft }

/-! ## Arithmetic lemmas -/

theorem wrap32_eq {z : Int} (h : InInt32 z) : wrap32 z = z := by
  unfold InInt32 INT32_MIN INT32_MAX at h
  unfold wrap32
  omega

theorem wrap32_inInt32 (z : Int) : InInt32 (wrap32 z) := by
  unfold InInt32 INT32_MIN INT32_MAX wrap32
  omega

theorem tdiv_nonneg_le {a k : Int} (ha : 0 ≤ a) (hk : 1 ≤ k) :
    0 ≤ Int.tdiv a k ∧ Int.tdiv a k ≤ a := by
  rw [Int.tdiv_eq_ediv ha (by omega)]
  exact ⟨Int.ediv_nonneg ha (by omega), Int.ediv_le_self k ha⟩

theorem tdiv_nonpos_ge {a k : Int} (ha : a ≤ 0) (hk : 1 ≤ k) :
    a ≤ Int.tdiv a k ∧ Int.tdiv a k ≤ 0 := by
  have h := tdiv_nonneg_le (a := -a) (by omega) hk
  rw [Int.neg_tdiv] at h
  omega

theorem tdiv_inInt32 {a k : Int} (ha : InInt32 a) (hk : 1 ≤ k) :
    InInt32 (Int.tdiv a k) := by
  unfold InInt32 INT32_MIN INT32_MAX at *
  rcases Int.le_total 0 a with h | h
  · have := tdiv_nonneg_le h hk; omega
  · have := tdiv_nonpos_ge h hk; omega

theorem div32_eq {a k : Int} (ha : InInt32 a) (hk : 1 ≤ k) :
    div32 a k = Int.tdiv a k := wrap32_eq (tdiv_inInt32 ha hk)

theorem mul_tdiv_le {a : Int} (k : Int) (ha : 0 ≤ a) : k * Int.tdiv a k ≤ a := by
  have h := Int.tdiv_add_tmod a k
  have h2 : 0 ≤ Int.tmod a k := Int.tmod_nonneg k ha
  omega

theorem le_mul_tdiv {a : Int} (k : Int) (ha : a ≤ 0) : a ≤ k * Int.tdiv a k := by
  have h := mul_tdiv_le (a := -a) k (by omega)
  rw [Int.neg_tdiv] at h
  have : k * -(Int.tdiv a k) = -(k * Int.tdiv a k) := by ring
  omega

/-- The upper end of the band times the window stays below `INT32_MAX`. -/
theorem mul_hi_le (k : Int) : k * Int.tdiv INT32_MAX k ≤ INT32_MAX :=
  mul_tdiv_le k (by decide)

/-- The lower end of the band times the window stays above `INT32_MIN`. -/
theorem le_mul_lo (k : Int) : INT32_MIN ≤ k * Int.tdiv INT32_MIN k :=
  le_mul_tdiv k (by decide)

theorem hi_bounds {k : Int} (hk : 1 ≤ k) :
    0 ≤ Int.tdiv INT32_MAX k ∧ Int.tdiv INT32_MAX k ≤ INT32_MAX :=
  tdiv_nonneg_le (by decide) hk

theorem lo_bounds {k : Int} (hk : 1 ≤ k) :
    INT32_MIN ≤ Int.tdiv INT32_MIN k ∧ Int.tdiv INT32_MIN k ≤ 0 :=
  tdiv_nonpos_ge (by decide) hk

theorem div32_hi {k : Int} (hk : 1 ≤ k) : div32 INT32_MAX k = Int.tdiv INT32_MAX k :=
  div32_eq (by decide) hk

theorem div32_lo {k : Int} (hk : 1 ≤ k) : div32 INT32_MIN k = Int.tdiv INT32_MIN k :=
  div32_eq (by decide) hk

/-- With a window of at least one, the range check is the clamp of the
specification. -/
theorem check_xt_range_eq_clamp {k : Int} (hk : 1 ≤ k) (x : Int) :
    check_xt_range k x = clamp k x := by
  have hh := hi_bounds hk
  have hl := lo_bounds hk
  unfold check_xt_range clamp
  simp only [div32_hi hk, div32_lo hk]
  split_ifs <;> simp only [min_def, max_def] <;> split_ifs <;> omega

theorem clamp_bounds {k : Int} (hk : 1 ≤ k) (x : Int) :
    Int.tdiv INT32_MIN k ≤ clamp k x ∧ clamp k x ≤ Int.tdiv INT32_MAX k := by
  have hh := hi_bounds hk
  have hl := lo_bounds hk
  unfold clamp
  simp only [min_def, max_def]
  split_ifs <;> omega

theorem clamp_of_mem {k x : Int}
    (h1 : Int.tdiv INT32_MIN k ≤ x) (h2 : x ≤ Int.tdiv INT32_MAX k) : clamp k x = x := by
  unfold clamp
  simp only [min_def, max_def]
  split_ifs <;> omega

theorem clamp_inInt32 {k : Int} (hk : 1 ≤ k) (x : Int) : InInt32 (clamp k x) := by
  have hh := hi_bounds hk
  have hl := lo_bounds hk
  have := clamp_bounds hk x
  unfold InInt32
  omega

/-! ## One call -/

theorem reset_check_n (data : EXP_SMOOTH_DATA) (tv_sec : Int) :
    (reset_check data tv_sec).n = if stale data tv_sec then 0 else data.n := by
  unfold reset_check
  split_ifs <;> rfl

theorem reset_check_n_alpha (data : EXP_SMOOTH_DATA) (tv_sec : Int) :
    (reset_check data tv_sec).n_alpha = data.n_alpha := by
  unfold reset_check
  split_ifs <;> rfl

theorem reset_check_stx1 (data : EXP_SMOOTH_DATA) (tv_sec : Int) :
    (reset_check data tv_sec).stx1 = data.stx1 := by
  unfold reset_check
  split_ifs <;> rfl

theorem reset_check_stx2 (data : EXP_SMOOTH_DATA) (tv_sec : Int) :
    (reset_check data tv_sec).stx2 = data.stx2 := by
  unfold reset_check
  split_ifs <;> rfl

theorem reset_check_reset_time (data : EXP_SMOOTH_DATA) (tv_sec : Int) :
    (reset_check data tv_sec).reset_time = data.reset_time := by
  unfold reset_check
  split_ifs <;> rfl

/-- The steady-state branch of `update`, field by field. -/
theorem update_steady (data : EXP_SMOOTH_DATA) (xt : Int) (hn : data.n_alpha ≤ data.n) :
    (update data xt).stx1
        = div32 (add32 xt (mul32 (sub32 data.n_alpha 1) data.stx1)) data.n_alpha ∧
    (update data xt).stx2
        = div32 (add32 (update data xt).stx1 (mul32 (sub32 data.n_alpha 1) data.stx2))
            data.n_alpha ∧
    (update data xt).ft
        = (if data.n_alpha > 1 then
            add32 (sub32 (mul32 2 (update data xt).stx1) (update data xt).stx2)
              (div32 (sub32 (update data xt).stx1 (update data xt).stx2)
                (sub32 data.n_alpha 1))
          else (update data xt).stx1) ∧
    (update data xt).n = data.n ∧ (update data xt).n_alpha = data.n_alpha ∧
    (update data xt).reset_time = data.reset_time ∧
    (update data xt).last_update_time = data.last_update_time := by
  unfold update
  rw [if_pos (ge_iff_le.mpr hn)]
  by_cases h : data.n_alpha > 1
  · simp only [h, if_true, and_self]
  · simp only [h, if_false, and_self]

/-- The warm-up branch of `update`, field by field. -/
theorem update_warmup (data : EXP_SMOOTH_DATA) (xt : Int) (hn : data.n < data.n_alpha) :
    (update data xt).n = add32 data.n 1 ∧
    (update data xt).stx1
        = div32 (add32 xt (mul32 (sub32 (add32 data.n 1) 1) data.stx1)) (add32 data.n 1) ∧
    (update data xt).stx2 = (update data xt).stx1 ∧
    (update data xt).ft = (update data xt).stx1 ∧
    (update data xt).n_alpha = data.n_alpha ∧
    (update data xt).reset_time = data.reset_time ∧
    (update data xt).last_update_time = data.last_update_time := by
  unfold update
  rw [if_neg (by simpa using hn)]
  simp only [and_self]

/-- When nothing overflows, the steady-state branch computes the formulas of
the specification. -/
theorem update_steady_exact (data : EXP_SMOOTH_DATA) (c : Int)
    (hk : 1 ≤ data.n_alpha) (hkty : InInt32 data.n_alpha) (hn : data.n_alpha ≤ data.n)
    (hfit : steady_fits data.n_alpha c data.stx1 data.stx2) :
    (update data c).stx1 = steady_stx1 data.n_alpha c data.stx1 ∧
    (update data c).stx2
      = steady_stx2 data.n_alpha (steady_stx1 data.n_alpha c data.stx1) data.stx2 ∧
    (update data c).ft
      = steady_forecast data.n_alpha (steady_stx1 data.n_alpha c data.stx1)
          (steady_stx2 data.n_alpha (steady_stx1 data.n_alpha c data.stx1) data.stx2) := by
  obtain ⟨e1, e2, e3, -⟩ := update_steady data c hn
  obtain ⟨h1, h2, h3, h4, h5⟩ := hfit
  have hk1 : sub32 data.n_alpha 1 = data.n_alpha - 1 := by
    apply wrap32_eq
    unfold InInt32 INT32_MIN INT32_MAX at *
    omega
  have s1 : (update data c).stx1 = steady_stx1 data.n_alpha c data.stx1 := by
    rw [e1, hk1]
    unfold mul32 add32
    rw [wrap32_eq h1, wrap32_eq h2, div32_eq h2 hk]
    rfl
  have s2 : (update data c).stx2
      = steady_stx2 data.n_alpha (steady_stx1 data.n_alpha c data.stx1) data.stx2 := by
    rw [e2, hk1, s1]
    unfold mul32 add32
    rw [wrap32_eq h3, wrap32_eq h4, div32_eq h4 hk]
    rfl
  refine ⟨s1, s2, ?_⟩
  rw [e3, s1, s2, hk1]
  by_cases hgt : data.n_alpha > 1
  · obtain ⟨g1, g2, g3, g4⟩ := h5 hgt
    unfold steady_forecast at g4 ⊢
    rw [if_pos hgt] at g4
    rw [if_pos hgt, if_pos hgt]
    unfold mul32 sub32 add32
    rw [wrap32_eq g1, wrap32_eq g2, wrap32_eq g3, div32_eq g3 (by omega), wrap32_eq g4]
  · unfold steady_forecast
    rw [if_neg hgt, if_neg hgt]

/-- When nothing overflows, the warm-up branch computes the running average
of the specification. -/
theorem update_warmup_exact (data : EXP_SMOOTH_DATA) (c : Int)
    (hn0 : 0 ≤ data.n) (hn : data.n < data.n_alpha) (hkty : InInt32 data.n_alpha)
    (hfit : warmup_fits data.n c data.stx1) :
    (update data c).n = data.n + 1 ∧
    (update data c).stx1 = warmup_stx1 data.n c data.stx1 ∧
    (update data c).stx2 = warmup_stx1 data.n c data.stx1 ∧
    (update data c).ft = warmup_stx1 data.n c data.stx1 := by
  obtain ⟨e0, e1, e2, e3, -⟩ := update_warmup data c hn
  obtain ⟨h1, h2⟩ := hfit
  have hn1 : add32 data.n 1 = data.n + 1 := by
    apply wrap32_eq
    unfold InInt32 INT32_MIN INT32_MAX at *
    omega
  have hn2 : sub32 (data.n + 1) 1 = data.n := by
    unfold sub32
    rw [show data.n + 1 - 1 = data.n by ring]
    apply wrap32_eq
    unfold InInt32 INT32_MIN INT32_MAX at *
    omega
  have s1 : (update data c).stx1 = warmup_stx1 data.n c data.stx1 := by
    rw [e1, hn1, hn2]
    unfold mul32 add32
    rw [wrap32_eq h1, wrap32_eq h2, div32_eq h2 (by omega)]
    rfl
  exact ⟨by rw [e0, hn1], s1, by rw [e2, s1], by rw [e3, s1]⟩

/-- Unfolding of one call when the record is not stale. -/
theorem time_series_smooth_fresh (data : EXP_SMOOTH_DATA) (xt tv_sec : Int)
    (hfresh : stale data tv_sec = false) :
    time_series_smooth data xt tv_sec
      = update { data with last_update_time := wrap32 tv_sec }
          (check_xt_range data.n_alpha xt) := by
  unfold time_series_smooth reset_check
  simp [hfresh]

/-- Unfolding of one call when the record is stale. -/
theorem time_series_smooth_stale (data : EXP_SMOOTH_DATA) (xt tv_sec : Int)
    (hstale : stale data tv_sec = true) :
    time_series_smooth data xt tv_sec
      = update { data with n := 0, last_update_time := wrap32 tv_sec }
          (check_xt_range data.n_alpha xt) := by
  unfold time_series_smooth reset_check
  simp [hstale]

theorem stale_eq_false {data : EXP_SMOOTH_DATA} {tv_sec : Int}
    (h : tv_sec - data.last_update_time ≤ data.reset_time) : stale data tv_sec = false := by
  unfold stale
  simp only [decide_eq_false_iff_not, not_lt, gt_iff_lt]
  exact h

theorem stale_eq_true {data : EXP_SMOOTH_DATA} {tv_sec : Int}
    (h : tv_sec - data.last_update_time > data.reset_time) : stale data tv_sec = true := by
  unfold stale
  simp only [decide_eq_true_eq]
  exact h

/-- The first sample after the counter is zero: the statistics and the
forecast all become the observation. -/
theorem update_first (data : EXP_SMOOTH_DATA) (c : Int)
    (hn : data.n = 0) (hk : 1 ≤ data.n_alpha) (hc : InInt32 c) :
    (update data c).n = 1 ∧ (update data c).stx1 = c ∧
    (update data c).stx2 = c ∧ (update data c).ft = c := by
  obtain ⟨e0, e1, e2, e3, -⟩ := update_warmup data c (by omega)
  have hn1 : add32 data.n 1 = 1 := by rw [hn]; decide
  have h0 : sub32 1 1 = 0 := by decide
  have s1 : (update data c).stx1 = c := by
    rw [e1, hn1, h0]
    unfold mul32 add32 div32
    rw [Int.zero_mul, show wrap32 0 = 0 by decide, Int.add_zero, wrap32_eq hc,
      Int.tdiv_one, wrap32_eq hc]
  exact ⟨by rw [e0, hn1], s1, by rw [e2, s1], by rw [e3, s1]⟩

/-- A call never changes `n_alpha` or `reset_time`, and stores the reduced
clock reading. -/
theorem time_series_smooth_frame (data : EXP_SMOOTH_DATA) (xt tv_sec : Int) :
    (time_series_smooth data xt tv_sec).n_alpha = data.n_alpha ∧
    (time_series_smooth data xt tv_sec).reset_time = data.reset_time ∧
    (time_series_smooth data xt tv_sec).last_update_time = wrap32 tv_sec := by
  unfold time_series_smooth
  have hl : (reset_check data tv_sec).last_update_time = wrap32 tv_sec := by
    unfold reset_check
    split_ifs <;> rfl
  rcases Int.lt_or_le (reset_check data tv_sec).n (reset_check data tv_sec).n_alpha with h | h
  · obtain ⟨-, -, -, -, e1, e2, e3⟩ := update_warmup (reset_check data tv_sec)
      (check_xt_range data.n_alpha xt) h
    exact ⟨by rw [e1, reset_check_n_alpha], by rw [e2, reset_check_reset_time],
      by rw [e3, hl]⟩
  · obtain ⟨-, -, -, -, e1, e2, e3⟩ := update_steady (reset_check data tv_sec)
      (check_xt_range data.n_alpha xt) h
    exact ⟨by rw [e1, reset_check_n_alpha], by rw [e2, reset_check_reset_time],
      by rw [e3, hl]⟩

/-- The counter after a call, in terms of the counter after the staleness
check. -/
theorem time_series_smooth_n (data : EXP_SMOOTH_DATA) (xt tv_sec : Int)
    (hkty : InInt32 data.n_alpha) (hnty : InInt32 (reset_check data tv_sec).n) :
    (time_series_smooth data xt tv_sec).n
      = if (reset_check data tv_sec).n < data.n_alpha then (reset_check data tv_sec).n + 1
        else (reset_check data tv_sec).n := by
  unfold time_series_smooth
  rcases Int.lt_or_le (reset_check data tv_sec).n data.n_alpha with h | h
  · rw [if_pos h,
      (update_warmup (reset_check data tv_sec) _ (by rw [reset_check_n_alpha]; exact h)).1]
    apply wrap32_eq
    unfold InInt32 INT32_MIN INT32_MAX at *
    omega
  · rw [if_neg (by omega),
      (update_steady (reset_check data tv_sec) _
        (by rw [reset_check_n_alpha]; exact h)).2.2.2.1]

/-! ## Operations of one call stay in range when the formulas fit -/

theorem check_xt_range_ops_fit {k : Int} (hk : 1 ≤ k) :
    ∀ z ∈ check_xt_range_ops k, InInt32 z := by
  intro z hz
  unfold check_xt_range_ops at hz
  simp only [List.mem_cons, List.mem_singleton, List.not_mem_nil, or_false] at hz
  rcases hz with rfl | rfl
  · exact tdiv_inInt32 (by decide) hk
  · exact tdiv_inInt32 (by decide) hk

theorem update_steady_ops_fit (data : EXP_SMOOTH_DATA) (c : Int)
    (hk : 1 ≤ data.n_alpha) (hkty : InInt32 data.n_alpha) (hn : data.n_alpha ≤ data.n)
    (hfit : steady_fits data.n_alpha c data.stx1 data.stx2) :
    ∀ z ∈ update_ops data c, InInt32 z := by
  obtain ⟨h1, h2, h3, h4, h5⟩ := hfit
  have hk1' : InInt32 (data.n_alpha - 1) := by
    unfold InInt32 INT32_MIN INT32_MAX at *
    omega
  have hk1 : sub32 data.n_alpha 1 = data.n_alpha - 1 := wrap32_eq hk1'
  have m1 : mul32 (data.n_alpha - 1) data.stx1 = (data.n_alpha - 1) * data.stx1 :=
    wrap32_eq h1
  have a1 : add32 c ((data.n_alpha - 1) * data.stx1) = c + (data.n_alpha - 1) * data.stx1 :=
    wrap32_eq h2
  have d1 : div32 (c + (data.n_alpha - 1) * data.stx1) data.n_alpha
      = steady_stx1 data.n_alpha c data.stx1 := div32_eq h2 hk
  have m2 : mul32 (data.n_alpha - 1) data.stx2 = (data.n_alpha - 1) * data.stx2 :=
    wrap32_eq h3
  have a2 : add32 (steady_stx1 data.n_alpha c data.stx1) ((data.n_alpha - 1) * data.stx2)
      = steady_stx1 data.n_alpha c data.stx1 + (data.n_alpha - 1) * data.stx2 :=
    wrap32_eq h4
  have d2 : div32 (steady_stx1 data.n_alpha c data.stx1 + (data.n_alpha - 1) * data.stx2)
      data.n_alpha
      = steady_stx2 data.n_alpha (steady_stx1 data.n_alpha c data.stx1) data.stx2 :=
    div32_eq h4 hk
  have q1 : InInt32 (steady_stx1 data.n_alpha c data.stx1) := tdiv_inInt32 h2 hk
  have q2 : InInt32 (steady_stx2 data.n_alpha (steady_stx1 data.n_alpha c data.stx1)
      data.stx2) := tdiv_inInt32 h4 hk
  intro z hz
  unfold update_ops at hz
  rw [if_pos (ge_iff_le.mpr hn)] at hz
  simp only [hk1, m1, a1, d1, m2, a2, d2] at hz
  by_cases hgt : data.n_alpha > 1
  · obtain ⟨g1, g2, g3, g4⟩ := h5 hgt
    unfold steady_forecast at g4
    rw [if_pos hgt] at g4
    have e1 : mul32 2 (steady_stx1 data.n_alpha c data.stx1)
        = 2 * steady_stx1 data.n_alpha c data.stx1 := wrap32_eq g1
    have e2 : sub32 (2 * steady_stx1 data.n_alpha c data.stx1)
        (steady_stx2 data.n_alpha (steady_stx1 data.n_alpha c data.stx1) data.stx2)
        = 2 * steady_stx1 data.n_alpha c data.stx1
          - steady_stx2 data.n_alpha (steady_stx1 data.n_alpha c data.stx1) data.stx2 :=
      wrap32_eq g2
    have e3 : sub32 (steady_stx1 data.n_alpha c data.stx1)
        (steady_stx2 data.n_alpha (steady_stx1 data.n_alpha c data.stx1) data.stx2)
        = steady_stx1 data.n_alpha c data.stx1
          - steady_stx2 data.n_alpha (steady_stx1 data.n_alpha c data.stx1) data.stx2 :=
      wrap32_eq g3
    have e4 : div32 (steady_stx1 data.n_alpha c data.stx1
          - steady_stx2 data.n_alpha (steady_stx1 data.n_alpha c data.stx1) data.stx2)
        (data.n_alpha - 1)
        = Int.tdiv (steady_stx1 data.n_alpha c data.stx1
          - steady_stx2 data.n_alpha (steady_stx1 data.n_alpha c data.stx1) data.stx2)
          (data.n_alpha - 1) := div32_eq g3 (by omega)
    simp only [if_pos hgt, e1, e2, e3, e4, List.cons_append, List.nil_append,
      List.mem_cons, List.mem_singleton, List.not_mem_nil, or_false] at hz
    rcases hz with rfl | rfl | rfl | rfl | rfl | rfl | rfl | rfl | rfl | rfl | rfl | rfl
    · exact hk1'
    · exact h1
    · exact h2
    · exact q1
    · exact h3
    · exact h4
    · exact q2
    · exact g1
    · exact g2
    · exact g3
    · exact tdiv_inInt32 g3 (by omega)
    · exact g4
  · simp only [if_neg hgt, List.append_nil, List.mem_cons, List.mem_singleton,
      List.not_mem_nil, or_false] at hz
    rcases hz with rfl | rfl | rfl | rfl | rfl | rfl | rfl
    · exact hk1'
    · exact h1
    · exact h2
    · exact q1
    · exact h3
    · exact h4
    · exact q2

theorem update_warmup_ops_fit (data : EXP_SMOOTH_DATA) (c : Int)
    (hn0 : 0 ≤ data.n) (hn : data.n < data.n_alpha) (hkty : InInt32 data.n_alpha)
    (hfit : warmup_fits data.n c data.stx1) :
    ∀ z ∈ update_ops data c, InInt32 z := by
  obtain ⟨h1, h2⟩ := hfit
  have hn1' : InInt32 (data.n + 1) := by
    unfold InInt32 INT32_MIN INT32_MAX at *
    omega
  have hn2' : InInt32 (data.n + 1 - 1) := by
    unfold InInt32 INT32_MIN INT32_MAX at *
    omega
  have hn1 : add32 data.n 1 = data.n + 1 := wrap32_eq hn1'
  have hn2 : sub32 (data.n + 1) 1 = data.n := by
    unfold sub32
    rw [wrap32_eq hn2']
    ring
  have m1 : mul32 data.n data.stx1 = data.n * data.stx1 := wrap32_eq h1
  have a1 : add32 c (data.n * data.stx1) = c + data.n * data.stx1 := wrap32_eq h2
  intro z hz
  unfold update_ops at hz
  rw [if_neg (by simpa using hn)] at hz
  simp only [hn1, hn2, m1, a1, List.mem_cons, List.mem_singleton, List.not_mem_nil,
    or_false] at hz
  rcases hz with rfl | rfl | rfl | rfl | rfl
  · exact hn1'
  · exact hn2'
  · exact h1
  · exact h2
  · exact tdiv_inInt32 h2 (by omega)

/-! ## A record whose statistics equal the observation -/

/-- A multiple `j * c` with `0 <= j <= k` of a value `c` of the band fits in
32 bits. -/
theorem mul_band_inInt32 {k j c : Int} (hj0 : 0 ≤ j) (hjk : j ≤ k)
    (hlo : Int.tdiv INT32_MIN k ≤ c) (hhi : c ≤ Int.tdiv INT32_MAX k) : InInt32 (j * c) := by
  have h1 := mul_hi_le k
  have h2 := le_mul_lo k
  have hk : 0 ≤ k := by omega
  unfold InInt32
  rcases Int.le_total 0 c with hc | hc
  · have e1 : j * c ≤ k * c := mul_le_mul_of_nonneg_right hjk hc
    have e2 : k * c ≤ k * Int.tdiv INT32_MAX k := mul_le_mul_of_nonneg_left hhi hk
    have e3 : 0 ≤ j * c := mul_nonneg hj0 hc
    have : INT32_MIN ≤ 0 := by decide
    omega
  · have e1 : k * c ≤ j * c := mul_le_mul_of_nonpos_right hjk hc
    have e2 : k * Int.tdiv INT32_MIN k ≤ k * c := mul_le_mul_of_nonneg_left hlo hk
    have e3 : j * c ≤ 0 := mul_nonpos_of_nonneg_of_nonpos hj0 hc
    have : (0:Int) ≤ INT32_MAX := by decide
    omega

theorem band_inInt32 {k c : Int} (hk : 1 ≤ k)
    (hlo : Int.tdiv INT32_MIN k ≤ c) (hhi : c ≤ Int.tdiv INT32_MAX k) : InInt32 c := by
  have := mul_band_inInt32 (j := 1) (by omega) hk hlo hhi
  rwa [Int.one_mul] at this

theorem steady_stx1_const {k : Int} (hk : 1 ≤ k) (c : Int) : steady_stx1 k c c = c := by
  unfold steady_stx1
  rw [show c + (k - 1) * c = k * c by ring]
  exact Int.mul_tdiv_cancel_left c (by omega)

theorem steady_stx2_const {k : Int} (hk : 1 ≤ k) (c : Int) : steady_stx2 k c c = c :=
  steady_stx1_const hk c

theorem steady_forecast_const (k c : Int) : steady_forecast k c c = c := by
  unfold steady_forecast
  split_ifs
  · rw [Int.sub_self, Int.zero_tdiv]; ring
  · rfl

theorem warmup_stx1_const {n : Int} (hn : 0 ≤ n) (c : Int) : warmup_stx1 n c c = c := by
  unfold warmup_stx1
  rw [show c + n * c = (n + 1) * c by ring]
  exact Int.mul_tdiv_cancel_left c (by omega)

theorem warmup_stx1_zero (c s : Int) : warmup_stx1 0 c s = c := by
  unfold warmup_stx1
  rw [Int.zero_mul, Int.add_zero, Int.zero_add, Int.tdiv_one]

/-- On statistics equal to a value of the band, the steady-state formulas
fit in 32 bits. -/
theorem steady_fits_const {k c : Int} (hk : 1 ≤ k)
    (hlo : Int.tdiv INT32_MIN k ≤ c) (hhi : c ≤ Int.tdiv INT32_MAX k) :
    steady_fits k c c c := by
  have hc := band_inInt32 hk hlo hhi
  have hk1 : InInt32 ((k - 1) * c) := mul_band_inInt32 (by omega) (by omega) hlo hhi
  have hkc : InInt32 (c + (k - 1) * c) := by
    rw [show c + (k - 1) * c = k * c by ring]
    exact mul_band_inInt32 (by omega) (by omega) hlo hhi
  unfold steady_fits
  rw [steady_stx1_const hk, steady_stx2_const hk, steady_forecast_const]
  refine ⟨hk1, hkc, hk1, hkc, ?_⟩
  intro hgt
  refine ⟨mul_band_inInt32 (by omega) (by omega) hlo hhi, ?_, ?_, hc⟩
  · rw [show 2 * c - c = c by ring]; exact hc
  · rw [Int.sub_self]; decide

/-- During warm-up on a statistic equal to a value of the band, the running
average formula fits in 32 bits. -/
theorem warmup_fits_const {k n c : Int} (hn0 : 0 ≤ n) (hn : n < k)
    (hlo : Int.tdiv INT32_MIN k ≤ c) (hhi : c ≤ Int.tdiv INT32_MAX k) :
    warmup_fits n c c := by
  unfold warmup_fits
  refine ⟨mul_band_inInt32 hn0 (by omega) hlo hhi, ?_⟩
  rw [show c + n * c = (n + 1) * c by ring]
  exact mul_band_inInt32 (by omega) (by omega) hlo hhi

theorem warmup_fits_zero {c : Int} (hc : InInt32 c) (s : Int) : warmup_fits 0 c s := by
  unfold warmup_fits
  rw [Int.zero_mul, Int.add_zero]
  exact ⟨by decide, hc⟩

/-- `update` on a record whose counter is zero or whose statistics already
equal the observation `c` of the band: the statistics and the forecast become
`c`, the counter stays within `1 .. n_alpha`, and no operation overflows. -/
theorem const_update (data : EXP_SMOOTH_DATA) (c : Int)
    (hk : 1 ≤ data.n_alpha) (hkty : InInt32 data.n_alpha)
    (hlo : Int.tdiv INT32_MIN data.n_alpha ≤ c) (hhi : c ≤ Int.tdiv INT32_MAX data.n_alpha)
    (hn0 : 0 ≤ data.n) (hnk : data.n ≤ data.n_alpha)
    (hs : data.n = 0 ∨ (data.stx1 = c ∧ data.stx2 = c)) :
    (update data c).stx1 = c ∧ (update data c).stx2 = c ∧ (update data c).ft = c ∧
    1 ≤ (update data c).n ∧ (update data c).n ≤ data.n_alpha ∧
    ∀ z ∈ update_ops data c, InInt32 z := by
  rcases Int.lt_or_le data.n data.n_alpha with hlt | hge
  · have hfit : warmup_fits data.n c data.stx1 ∧ warmup_stx1 data.n c data.stx1 = c := by
      rcases hs with h0 | ⟨h1, -⟩
      · rw [h0]
        exact ⟨warmup_fits_zero (band_inInt32 hk hlo hhi) _, warmup_stx1_zero _ _⟩
      · rw [h1]
        exact ⟨warmup_fits_const hn0 hlt hlo hhi, warmup_stx1_const hn0 c⟩
    obtain ⟨e0, e1, e2, e3⟩ := update_warmup_exact data c hn0 hlt hkty hfit.1
    rw [hfit.2] at e1 e2 e3
    exact ⟨e1, e2, e3, by omega, by omega,
      update_warmup_ops_fit data c hn0 hlt hkty hfit.1⟩
  · obtain ⟨h1, h2⟩ := hs.resolve_left (by omega)
    have hfit : steady_fits data.n_alpha c data.stx1 data.stx2 := by
      rw [h1, h2]; exact steady_fits_const hk hlo hhi
    obtain ⟨e1, e2, e3⟩ := update_steady_exact data c hk hkty hge hfit
    have en := (update_steady data c hge).2.2.2.1
    rw [h1, h2, steady_stx1_const hk, steady_stx2_const hk] at e2 e3
    rw [h1, steady_stx1_const hk] at e1
    rw [steady_forecast_const] at e3
    exact ⟨e1, e2, e3, by omega, by omega,
      update_steady_ops_fit data c hk hkty hge hfit⟩

/-- One call on such a record. -/
theorem const_step (data : EXP_SMOOTH_DATA) (xt tv_sec : Int)
    (hk : 1 ≤ data.n_alpha) (hkty : InInt32 data.n_alpha)
    (hn0 : 0 ≤ data.n) (hnk : data.n ≤ data.n_alpha)
    (hs : data.n = 0 ∨
      (data.stx1 = clamp data.n_alpha xt ∧ data.stx2 = clamp data.n_alpha xt)) :
    (time_series_smooth data xt tv_sec).stx1 = clamp data.n_alpha xt ∧
    (time_series_smooth data xt tv_sec).stx2 = clamp data.n_alpha xt ∧
    (time_series_smooth data xt tv_sec).ft = clamp data.n_alpha xt ∧
    1 ≤ (time_series_smooth data xt tv_sec).n ∧
    (time_series_smooth data xt tv_sec).n ≤ data.n_alpha ∧
    ∀ z ∈ time_series_smooth_ops data xt tv_sec, InInt32 z := by
  have hb := clamp_bounds hk xt
  have hn : (reset_check data tv_sec).n = 0 ∨ (reset_check data tv_sec).n = data.n := by
    rw [reset_check_n]
    split_ifs
    · exact Or.inl rfl
    · exact Or.inr rfl
  have hka := reset_check_n_alpha data tv_sec
  obtain ⟨e1, e2, e3, e4, e5, e6⟩ := const_update (reset_check data tv_sec)
    (clamp data.n_alpha xt) (by rw [hka]; exact hk) (by rw [hka]; exact hkty)
    (by rw [hka]; exact hb.1) (by rw [hka]; exact hb.2)
    (by rcases hn with h | h <;> omega) (by rw [hka]; rcases hn with h | h <;> omega)
    (by
      rw [reset_check_stx1, reset_check_stx2]
      rcases hn with h | h
      · exact Or.inl h
      · rcases hs with h0 | h0
        · exact Or.inl (by omega)
        · exact Or.inr h0)
  rw [hka] at e5
  unfold time_series_smooth time_series_smooth_ops
  rw [check_xt_range_eq_clamp hk]
  refine ⟨e1, e2, e3, e4, e5, ?_⟩
  intro z hz
  rcases List.mem_append.mp hz with h | h
  · exact check_xt_range_ops_fit hk z h
  · exact e6 z h

/-- A run that feeds the same observation at every call, with any clock
readings: every forecast is the clamped observation and no operation
overflows. -/
theorem const_run (xt : Int) (ts : List Int) :
    ∀ data : EXP_SMOOTH_DATA, 1 ≤ data.n_alpha → InInt32 data.n_alpha →
      0 ≤ data.n → data.n ≤ data.n_alpha →
      (data.n = 0 ∨
        (data.stx1 = clamp data.n_alpha xt ∧ data.stx2 = clamp data.n_alpha xt)) →
      forecasts data (ts.map fun t => (xt, t))
        = List.replicate ts.length (clamp data.n_alpha xt) ∧
      (∀ z ∈ run_ops data (ts.map fun t => (xt, t)), InInt32 z) ∧
      (ts ≠ [] →
        (smooth_run data (ts.map fun t => (xt, t))).ft = clamp data.n_alpha xt) := by
  induction ts with
  | nil =>
    intro data _ _ _ _ _
    simp [forecasts, run_ops]
  | cons t rest ih =>
    intro data hk hkty hn0 hnk hs
    obtain ⟨e1, e2, e3, e4, e5, e6⟩ := const_step data xt t hk hkty hn0 hnk hs
    have hka := (time_series_smooth_frame data xt t).1
    obtain ⟨i1, i2, i3⟩ := ih (time_series_smooth data xt t) (by rw [hka]; exact hk)
      (by rw [hka]; exact hkty) (by omega) (by rw [hka]; exact e5)
      (by rw [hka]; exact Or.inr ⟨e1, e2⟩)
    rw [hka] at i1 i3
    refine ⟨?_, ?_, ?_⟩
    · simp only [List.map_cons, forecasts, List.length_cons, List.replicate_succ]
      rw [e3, i1]
    · intro z hz
      simp only [List.map_cons, run_ops, List.mem_append] at hz
      rcases hz with h | h
      · exact e6 z h
      · exact i2 z h
    · intro _
      simp only [List.map_cons, smooth_run]
      rcases rest with _ | ⟨t2, rest2⟩
      · simpa [smooth_run] using e3
      · exact i3 (by simp)

/-! ## The counter along a run -/

/-- Without a reset the counter grows by one per call up to `n_alpha`. -/
theorem run_n (obs : List (Int × Int)) :
    ∀ data : EXP_SMOOTH_DATA, 1 ≤ data.n_alpha → InInt32 data.n_alpha →
      0 ≤ data.n → data.n ≤ data.n_alpha → no_reset data obs = true →
      (smooth_run data obs).n = min (data.n + obs.length) data.n_alpha := by
  induction obs with
  | nil =>
    intro data _ _ _ hnk _
    simp only [smooth_run, List.length_nil, Nat.cast_zero, add_zero]
    omega
  | cons p rest ih =>
    intro data hk hkty hn0 hnk hq
    obtain ⟨xt, t⟩ := p
    simp only [no_reset, Bool.and_eq_true, Bool.not_eq_true'] at hq
    have hn : (reset_check data t).n = data.n := by
      rw [reset_check_n, hq.1]; rfl
    have hnty : InInt32 data.n := by
      unfold InInt32 INT32_MIN INT32_MAX at *
      omega
    have e := time_series_smooth_n data xt t hkty (by rw [hn]; exact hnty)
    rw [hn] at e
    have hka := (time_series_smooth_frame data xt t).1
    have h := ih (time_series_smooth data xt t) (by rw [hka]; exact hk)
      (by rw [hka]; exact hkty) (by rw [e]; split_ifs <;> omega)
      (by rw [hka, e]; split_ifs <;> omega) hq.2
    simp only [smooth_run, List.length_cons, Nat.cast_add, Nat.cast_one]
    rw [h, hka, e]
    split_ifs <;> omega

/-- From a zero counter, with no reset after the first call, the counter
after `j` calls is `min j n_alpha`. -/
theorem run_n_from_zero (obs : List (Int × Int)) (data : EXP_SMOOTH_DATA)
    (hk : 1 ≤ data.n_alpha) (hkty : InInt32 data.n_alpha) (hn : data.n = 0)
    (hq : no_reset_between data obs = true) :
    (smooth_run data obs).n = min (obs.length : Int) data.n_alpha := by
  rcases obs with _ | ⟨⟨xt, t⟩, rest⟩
  · simp only [smooth_run, List.length_nil, Nat.cast_zero]
    omega
  · simp only [no_reset_between] at hq
    have h0 : (reset_check data t).n = 0 := by
      rw [reset_check_n, hn]; split_ifs <;> rfl
    have e := time_series_smooth_n data xt t hkty (by rw [h0]; decide)
    rw [h0, if_pos (by omega)] at e
    have hka := (time_series_smooth_frame data xt t).1
    have h := run_n rest (time_series_smooth data xt t) (by rw [hka]; exact hk)
      (by rw [hka]; exact hkty) (by omega) (by omega) hq
    simp only [smooth_run, List.length_cons, Nat.cast_add, Nat.cast_one]
    rw [h, hka, e]
    omega

theorem no_reset_take (obs : List (Int × Int)) :
    ∀ (j : Nat) (data : EXP_SMOOTH_DATA), no_reset data obs = true →
      no_reset data (obs.take j) = true := by
  induction obs with
  | nil => intro j data _; simp [no_reset]
  | cons p rest ih =>
    intro j data hq
    obtain ⟨xt, t⟩ := p
    cases j with
    | zero => simp [no_reset]
    | succ j =>
      simp only [no_reset, Bool.and_eq_true, Bool.not_eq_true'] at hq
      simp only [List.take_succ_cons, no_reset, Bool.and_eq_true, Bool.not_eq_true']
      exact ⟨hq.1, ih j _ hq.2⟩

theorem no_reset_between_take (obs : List (Int × Int)) (j : Nat) (data : EXP_SMOOTH_DATA)
    (hq : no_reset_between data obs = true) :
    no_reset_between data (obs.take j) = true := by
  rcases obs with _ | ⟨⟨xt, t⟩, rest⟩
  · simp [no_reset_between]
  · cases j with
    | zero => simp [no_reset_between]
    | succ j =>
      simp only [no_reset_between] at hq
      simp only [List.take_succ_cons, no_reset_between]
      exact no_reset_take rest j _ hq

/-! ## Window of one -/

theorem clamp_one {x : Int} (hx : InInt32 x) : clamp 1 x = x := by
  apply clamp_of_mem
  · rw [Int.tdiv_one]; exact hx.1
  · rw [Int.tdiv_one]; exact hx.2

/-- With `n_alpha = 1` a call stores the observation as the forecast and
keeps the counter non-negative. -/
theorem step_window_one (data : EXP_SMOOTH_DATA) (xt tv_sec : Int)
    (hk : data.n_alpha = 1) (hn : 0 ≤ data.n) (hx : InInt32 xt) :
    (time_series_smooth data xt tv_sec).ft = xt ∧
    (time_series_smooth data xt tv_sec).n_alpha = 1 ∧
    0 ≤ (time_series_smooth data xt tv_sec).n := by
  have hka := (time_series_smooth_frame data xt tv_sec).1
  have hk1 : (reset_check data tv_sec).n_alpha = 1 := by rw [reset_check_n_alpha, hk]
  have hn1 : 0 ≤ (reset_check data tv_sec).n := by
    rw [reset_check_n]; split_ifs <;> omega
  refine ⟨?_, by rw [hka, hk], ?_⟩ <;> unfold time_series_smooth <;>
    rw [hk, check_xt_range_eq_clamp (le_refl 1), clamp_one hx]
  · rcases Int.lt_or_le (reset_check data tv_sec).n 1 with h | h
    · exact (update_first (reset_check data tv_sec) xt (by omega) (by omega) hx).2.2.2
    · have hfit : steady_fits (reset_check data tv_sec).n_alpha xt
          (reset_check data tv_sec).stx1 (reset_check data tv_sec).stx2 := by
        unfold steady_fits steady_stx1
        rw [hk1]
        simp only [sub_self, zero_mul, add_zero, Int.tdiv_one, gt_iff_lt, lt_self_iff_false,
          false_implies, and_true]
        exact ⟨by decide, hx, by decide, hx⟩
      obtain ⟨-, -, e3⟩ := update_steady_exact (reset_check data tv_sec) xt (by omega)
        (by rw [hk1]; decide) (by omega) hfit
      rw [e3, hk1]
      unfold steady_forecast steady_stx1
      simp
  · rcases Int.lt_or_le (reset_check data tv_sec).n 1 with h | h
    · rw [(update_first (reset_check data tv_sec) xt (by omega) (by omega) hx).1]
      decide
    · rw [(update_steady (reset_check data tv_sec) xt (by omega)).2.2.2.1]
      exact hn1

theorem run_window_one (obs : List (Int × Int)) :
    ∀ data : EXP_SMOOTH_DATA, data.n_alpha = 1 → 0 ≤ data.n →
      (∀ p ∈ obs, InInt32 p.1) → forecasts data obs = obs.map Prod.fst := by
  induction obs with
  | nil => intro data _ _ _; rfl
  | cons p rest ih =>
    intro data hk hn hx
    obtain ⟨xt, t⟩ := p
    obtain ⟨e1, e2, e3⟩ := step_window_one data xt t hk hn
      (hx (xt, t) (List.mem_cons_self _ _))
    simp only [forecasts, List.map_cons]
    rw [e1, ih (time_series_smooth data xt t) e2 e3
      (fun q hq => hx q (List.mem_cons_of_mem _ hq))]

/-! ## Option handling -/

/-- The effect of one option on the error flag, the overrun mark and the
record. -/
theorem get_option_spec (s : MainState) (o : CmdOption) :
    (get_option s o).errorFlag = (s.errorFlag || !accepted o) ∧
    (get_option s o).overrun = (s.overrun || overruns o) ∧
    (get_option s o).data
      = { s.data with n_alpha := next_n_alpha s.data.n_alpha o,
                      reset_time := next_reset_time s.data.reset_time o } := by
  cases o with
  | h => simp [get_option, accepted, overruns, next_n_alpha, next_reset_time]
  | n v =>
    simp only [get_option, accepted, overruns, next_n_alpha, next_reset_time,
      Bool.or_false]
    by_cases h1 : wrap32 v = 0
    · simp [h1]
    · by_cases h2 : wrap32 v < 0
      · have h3 : ¬ 1 ≤ wrap32 v := by omega
        simp [h1, h2, h3]
      · have h3 : 1 ≤ wrap32 v := by omega
        simp [h1, h2, h3]
  | r v =>
    simp only [get_option, accepted, overruns, next_n_alpha, next_reset_time,
      Bool.or_false]
    by_cases h1 : wrap32 v = 0
    · simp [h1]
    · by_cases h2 : wrap32 v < 0
      · have h3 : ¬ 1 ≤ wrap32 v := by omega
        simp [h1, h2, h3]
      · have h3 : 1 ≤ wrap32 v := by omega
        simp [h1, h2, h3]
  | t v =>
    simp only [get_option, accepted, overruns, next_n_alpha, next_reset_time,
      Bool.or_false]
    by_cases h1 : wrap32 v = 0
    · simp [h1]
    · by_cases h2 : wrap32 v < 0
      · have h3 : ¬ 1 ≤ wrap32 v := by omega
        simp [h1, h2, h3]
      · have h3 : 1 ≤ wrap32 v := by omega
        simp [h1, h2, h3]
  | w len => simp [get_option, accepted, overruns, next_n_alpha, next_reset_time]
  | other => simp [get_option, accepted, overruns, next_n_alpha, next_reset_time]

/-- The effect of the option loop from any state. -/
theorem foldl_get_option_spec (opts : List CmdOption) :
    ∀ s : MainState,
      (opts.foldl get_option s).errorFlag = (s.errorFlag || opts.any fun o => !accepted o) ∧
      (opts.foldl get_option s).overrun = (s.overrun || opts.any overruns) ∧
      (opts.foldl get_option s).data
        = { s.data with n_alpha := opts.foldl next_n_alpha s.data.n_alpha,
                        reset_time := opts.foldl next_reset_time s.data.reset_time } := by
  induction opts with
  | nil => intro s; simp
  | cons o rest ih =>
    intro s
    obtain ⟨a, b, c⟩ := get_option_spec s o
    obtain ⟨i1, i2, i3⟩ := ih (get_option s o)
    simp only [List.foldl_cons, List.any_cons]
    refine ⟨?_, ?_, ?_⟩
    · rw [i1, a, Bool.or_assoc]
    · rw [i2, b, Bool.or_assoc]
    · rw [i3, c]

/-- The outcome of `main` in terms of what the options ask for. -/
theorem main_setup_eq (opts : List CmdOption) :
    main_setup opts
      = if opts.any overruns then Outcome.undefined
        else if opts.all accepted then
          Outcome.run (init_data (final_n_alpha opts) (final_reset_time opts))
        else Outcome.exit := by
  obtain ⟨a, b, c⟩ := foldl_get_option_spec opts main_init
  have hc : (get_options opts).data
      = init_data (final_n_alpha opts) (final_reset_time opts) := c
  have ha : (get_options opts).errorFlag = !opts.all accepted := by
    have : (get_options opts).errorFlag = (false || opts.any fun o => !accepted o) := a
    rw [this, Bool.false_or, List.all_eq_not_any_not, Bool.not_not]
  have hb : (get_options opts).overrun = opts.any overruns := by
    have : (get_options opts).overrun = (false || opts.any overruns) := b
    rw [this, Bool.false_or]
  unfold main_setup
  rw [ha, hb, hc]
  cases opts.any overruns <;> cases opts.all accepted <;> rfl

theorem not_any_overruns (opts : List CmdOption)
    (h : ∀ o ∈ opts, overruns o = false) : opts.any overruns = false := by
  rw [Bool.eq_false_iff]
  intro hany
  obtain ⟨o, ho, hov⟩ := List.any_eq_true.mp hany
  rw [h o ho] at hov
  cases hov

theorem next_n_alpha_pos (opts : List CmdOption) :
    ∀ a : Int, 1 ≤ a → opts.all accepted = true → 1 ≤ opts.foldl next_n_alpha a := by
  induction opts with
  | nil => intro a ha _; exact ha
  | cons o rest ih =>
    intro a ha hall
    simp only [List.all_cons, Bool.and_eq_true] at hall
    simp only [List.foldl_cons]
    refine ih _ ?_ hall.2
    cases o with
    | n v => simpa [accepted, next_n_alpha] using hall.1
    | h => exact ha
    | r v => exact ha
    | t v => exact ha
    | w len => exact ha
    | other => exact ha

theorem next_reset_time_pos (opts : List CmdOption) :
    ∀ a : Int, 1 ≤ a → opts.all accepted = true → 1 ≤ opts.foldl next_reset_time a := by
  induction opts with
  | nil => intro a ha _; exact ha
  | cons o rest ih =>
    intro a ha hall
    simp only [List.all_cons, Bool.and_eq_true] at hall
    simp only [List.foldl_cons]
    refine ih _ ?_ hall.2
    cases o with
    | t v => simpa [accepted, next_reset_time] using hall.1
    | h => exact ha
    | r v => exact ha
    | n v => exact ha
    | w len => exact ha
    | other => exact ha

theorem next_n_alpha_default (opts : List CmdOption) :
    ∀ a : Int, (∀ v : Int, CmdOption.n v ∉ opts) → opts.foldl next_n_alpha a = a := by
  induction opts with
  | nil => intro a _; rfl
  | cons o rest ih =>
    intro a h
    simp only [List.foldl_cons]
    have hr : ∀ v : Int, CmdOption.n v ∉ rest :=
      fun v hv => h v (List.mem_cons_of_mem _ hv)
    cases o with
    | n v => exact absurd (List.mem_cons_self _ _) (h v)
    | h => exact ih a hr
    | r v => exact ih a hr
    | t v => exact ih a hr
    | w len => exact ih a hr
    | other => exact ih a hr

theorem next_reset_time_default (opts : List CmdOption) :
    ∀ a : Int, (∀ v : Int, CmdOption.t v ∉ opts) → opts.foldl next_reset_time a = a := by
  induction opts with
  | nil => intro a _; rfl
  | cons o rest ih =>
    intro a h
    simp only [List.foldl_cons]
    have hr : ∀ v : Int, CmdOption.t v ∉ rest :=
      fun v hv => h v (List.mem_cons_of_mem _ hv)
    cases o with
    | t v => exact absurd (List.mem_cons_self _ _) (h v)
    | h => exact ih a hr
    | r v => exact ih a hr
    | n v => exact ih a hr
    | w len => exact ih a hr
    | other => exact ih a hr

theorem smooth_run_frame (obs : List (Int × Int)) :
    ∀ data : EXP_SMOOTH_DATA,
      (smooth_run data obs).n_alpha = data.n_alpha ∧
      (smooth_run data obs).reset_time = data.reset_time := by
  induction obs with
  | nil => intro data; exact ⟨rfl, rfl⟩
  | cons p rest ih =>
    intro data
    obtain ⟨xt, t⟩ := p
    obtain ⟨a, b, -⟩ := time_series_smooth_frame data xt t
    obtain ⟨c, d⟩ := ih (time_series_smooth data xt t)
    exact ⟨c.trans a, d.trans b⟩

/-! ## Truncating division of a weighted sum -/

/-- Quotient and remainder of the truncating division by a positive
divisor. -/
theorem tdiv_spec (a : Int) {m : Int} (hm : 0 < m) :
    ∃ r : Int, m * Int.tdiv a m + r = a ∧ (0 ≤ a → 0 ≤ r) ∧ (a ≤ 0 → r ≤ 0) ∧
      -m < r ∧ r < m := by
  rcases Int.le_total 0 a with h | h
  · refine ⟨Int.tmod a m, Int.tdiv_add_tmod a m, fun _ => Int.tmod_nonneg m h, ?_, ?_, ?_⟩
    · intro h2
      have : a = 0 := by omega
      rw [this, Int.zero_tmod]
    · have := Int.tmod_nonneg m h
      omega
    · exact Int.tmod_lt_of_pos a hm
  · have e := Int.tdiv_add_tmod (-a) m
    have r1 := Int.tmod_nonneg m (show 0 ≤ -a by omega)
    have r2 := Int.tmod_lt_of_pos (-a) hm
    rw [Int.neg_tdiv, mul_neg] at e
    refine ⟨-Int.tmod (-a) m, by omega, ?_, fun _ => by omega, by omega, by omega⟩
    intro h2
    have : a = 0 := by omega
    rw [this]
    simp

/-- A dividend between `m * L` and `m * U` has its truncated quotient
between `L` and `U`. -/
theorem tdiv_between {a m L U : Int} (hm : 0 < m) (h1 : m * L ≤ a) (h2 : a ≤ m * U) :
    L ≤ Int.tdiv a m ∧ Int.tdiv a m ≤ U := by
  obtain ⟨r, e, -, -, r1, r2⟩ := tdiv_spec a hm
  constructor
  · by_contra hlt
    have h3 : Int.tdiv a m + 1 ≤ L := by omega
    have h4 := mul_le_mul_of_nonneg_left h3 (le_of_lt hm)
    rw [mul_add, mul_one] at h4
    omega
  · by_contra hlt
    have h3 : U + 1 ≤ Int.tdiv a m := by omega
    have h4 := mul_le_mul_of_nonneg_left h3 (le_of_lt hm)
    rw [mul_add, mul_one] at h4
    omega

/-- The weighted sum `c + j * s` of two values of an interval lies between
`(j + 1)` times its ends. -/
theorem weighted_sum_bounds {j c s L U : Int} (hj : 0 ≤ j)
    (hc1 : L ≤ c) (hc2 : c ≤ U) (hs1 : L ≤ s) (hs2 : s ≤ U) :
    (j + 1) * L ≤ c + j * s ∧ c + j * s ≤ (j + 1) * U := by
  have e1 := mul_le_mul_of_nonneg_left hs1 hj
  have e2 := mul_le_mul_of_nonneg_left hs2 hj
  rw [add_mul, one_mul, add_mul, one_mul]
  omega

/-- The truncated weighted average of two values of an interval lies in the
interval. -/
theorem weighted_avg_between {j c s L U : Int} (hj : 0 ≤ j)
    (hc1 : L ≤ c) (hc2 : c ≤ U) (hs1 : L ≤ s) (hs2 : s ≤ U) :
    L ≤ Int.tdiv (c + j * s) (j + 1) ∧ Int.tdiv (c + j * s) (j + 1) ≤ U := by
  obtain ⟨e1, e2⟩ := weighted_sum_bounds hj hc1 hc2 hs1 hs2
  exact tdiv_between (by omega) e1 e2

theorem band_zero {k : Int} (hk : 1 ≤ k) : InBand k 0 :=
  ⟨(lo_bounds hk).2, (hi_bounds hk).1⟩

theorem clamp_inBand {k : Int} (hk : 1 ≤ k) (x : Int) : InBand k (clamp k x) :=
  clamp_bounds hk x

/-- With `j + 1 <= k`, product, sum and truncated average of band values fit:
the product and the sum in 32 bits, the average in the band. -/
theorem band_weighted {k j c s : Int} (hk : 1 ≤ k) (hj : 0 ≤ j) (hjk : j + 1 ≤ k)
    (hc : InBand k c) (hs : InBand k s) :
    InInt32 (j * s) ∧ InInt32 (c + j * s) ∧ InBand k (Int.tdiv (c + j * s) (j + 1)) := by
  obtain ⟨e1, e2⟩ := weighted_sum_bounds hj hc.1 hc.2 hs.1 hs.2
  have hlo : InBand k (Int.tdiv INT32_MIN k) := ⟨le_refl _, by
    have := lo_bounds hk; have := hi_bounds hk; omega⟩
  have hhi : InBand k (Int.tdiv INT32_MAX k) := ⟨by
    have := lo_bounds hk; have := hi_bounds hk; omega, le_refl _⟩
  have b1 := mul_band_inInt32 (j := j + 1) (by omega) hjk hlo.1 hlo.2
  have b2 := mul_band_inInt32 (j := j + 1) (by omega) hjk hhi.1 hhi.2
  refine ⟨mul_band_inInt32 hj (by omega) hs.1 hs.2, ?_,
    weighted_avg_between hj hc.1 hc.2 hs.1 hs.2⟩
  unfold InInt32 at *
  omega

/-! ## The band is preserved -/

theorem update_ops_split (data : EXP_SMOOTH_DATA) (xt : Int) :
    update_ops data xt = update_stx_ops data xt ++ update_ft_ops data xt := by
  unfold update_ops update_stx_ops update_ft_ops
  by_cases h : data.n ≥ data.n_alpha
  · simp only [if_pos h]
  · simp only [if_neg h, List.append_nil]

theorem steady_fits_iff (k c stx1 stx2 : Int) :
    steady_fits k c stx1 stx2 ↔
      (steady_stx_fits k c stx1 stx2 ∧
        (k > 1 → forecast_fits k (steady_stx1 k c stx1)
          (steady_stx2 k (steady_stx1 k c stx1) stx2))) := by
  unfold steady_fits steady_stx_fits forecast_fits steady_forecast
  constructor
  · rintro ⟨h1, h2, h3, h4, h5⟩
    refine ⟨⟨h1, h2, h3, h4⟩, fun hgt => ?_⟩
    obtain ⟨g1, g2, g3, g4⟩ := h5 hgt
    rw [if_pos hgt] at g4
    exact ⟨g1, g2, g3, g4⟩
  · rintro ⟨⟨h1, h2, h3, h4⟩, h5⟩
    refine ⟨h1, h2, h3, h4, fun hgt => ?_⟩
    obtain ⟨g1, g2, g3, g4⟩ := h5 hgt
    rw [if_pos hgt]
    exact ⟨g1, g2, g3, g4⟩

/-- When the statistics' products and sums fit, the steady-state branch
stores the statistics of the specification. -/
theorem update_steady_stx_exact (data : EXP_SMOOTH_DATA) (c : Int)
    (hk : 1 ≤ data.n_alpha) (hkty : InInt32 data.n_alpha) (hn : data.n_alpha ≤ data.n)
    (hfit : steady_stx_fits data.n_alpha c data.stx1 data.stx2) :
    (update data c).stx1 = steady_stx1 data.n_alpha c data.stx1 ∧
    (update data c).stx2
      = steady_stx2 data.n_alpha (steady_stx1 data.n_alpha c data.stx1) data.stx2 := by
  obtain ⟨e1, e2, -⟩ := update_steady data c hn
  obtain ⟨h1, h2, h3, h4⟩ := hfit
  have hk1 : sub32 data.n_alpha 1 = data.n_alpha - 1 := by
    apply wrap32_eq
    unfold InInt32 INT32_MIN INT32_MAX at *
    omega
  have s1 : (update data c).stx1 = steady_stx1 data.n_alpha c data.stx1 := by
    rw [e1, hk1]
    unfold mul32 add32
    rw [wrap32_eq h1, wrap32_eq h2, div32_eq h2 hk]
    rfl
  refine ⟨s1, ?_⟩
  rw [e2, hk1, s1]
  unfold mul32 add32
  rw [wrap32_eq h3, wrap32_eq h4, div32_eq h4 hk]
  rfl

theorem update_steady_stx_ops_fit (data : EXP_SMOOTH_DATA) (c : Int)
    (hk : 1 ≤ data.n_alpha) (hkty : InInt32 data.n_alpha) (hn : data.n_alpha ≤ data.n)
    (hfit : steady_stx_fits data.n_alpha c data.stx1 data.stx2) :
    ∀ z ∈ update_stx_ops data c, InInt32 z := by
  obtain ⟨h1, h2, h3, h4⟩ := hfit
  have hk1' : InInt32 (data.n_alpha - 1) := by
    unfold InInt32 INT32_MIN INT32_MAX at *
    omega
  have hk1 : sub32 data.n_alpha 1 = data.n_alpha - 1 := wrap32_eq hk1'
  have m1 : mul32 (data.n_alpha - 1) data.stx1 = (data.n_alpha - 1) * data.stx1 :=
    wrap32_eq h1
  have a1 : add32 c ((data.n_alpha - 1) * data.stx1) = c + (data.n_alpha - 1) * data.stx1 :=
    wrap32_eq h2
  have d1 : div32 (c + (data.n_alpha - 1) * data.stx1) data.n_alpha
      = steady_stx1 data.n_alpha c data.stx1 := div32_eq h2 hk
  have m2 : mul32 (data.n_alpha - 1) data.stx2 = (data.n_alpha - 1) * data.stx2 :=
    wrap32_eq h3
  have a2 : add32 (steady_stx1 data.n_alpha c data.stx1) ((data.n_alpha - 1) * data.stx2)
      = steady_stx1 data.n_alpha c data.stx1 + (data.n_alpha - 1) * data.stx2 :=
    wrap32_eq h4
  intro z hz
  unfold update_stx_ops at hz
  rw [if_pos (ge_iff_le.mpr hn)] at hz
  simp only [hk1, m1, a1, d1, m2, a2, List.mem_cons, List.mem_singleton,
    List.not_mem_nil, or_false] at hz
  rcases hz with rfl | rfl | rfl | rfl | rfl | rfl | rfl
  · exact hk1'
  · exact h1
  · exact h2
  · exact tdiv_inInt32 h2 hk
  · exact h3
  · exact h4
  · exact tdiv_inInt32 h4 hk

theorem update_warmup_stx_ops (data : EXP_SMOOTH_DATA) (c : Int)
    (hn : data.n < data.n_alpha) : update_stx_ops data c = update_ops data c := by
  unfold update_stx_ops update_ops
  simp only [if_neg (show ¬ data.n ≥ data.n_alpha by omega)]

/-- On band values the products and sums of the steady-state statistics fit
and the new statistics lie in the band. -/
theorem band_steady {k c s1 s2 : Int} (hk : 1 ≤ k)
    (hc : InBand k c) (h1 : InBand k s1) (h2 : InBand k s2) :
    steady_stx_fits k c s1 s2 ∧ InBand k (steady_stx1 k c s1) ∧
    InBand k (steady_stx2 k (steady_stx1 k c s1) s2) := by
  have hkk : k - 1 + 1 = k := by ring
  obtain ⟨a1, a2, a3⟩ := band_weighted hk (show 0 ≤ k - 1 by omega) (by omega) hc h1
  rw [hkk] at a3
  have a3' : InBand k (steady_stx1 k c s1) := a3
  obtain ⟨b1, b2, b3⟩ := band_weighted hk (show 0 ≤ k - 1 by omega) (by omega) a3' h2
  rw [hkk] at b3
  exact ⟨⟨a1, a2, b1, b2⟩, a3', b3⟩

/-- On band values the warm-up product and sum fit and the running average
lies in the band. -/
theorem band_warmup {k n c s1 : Int} (hk : 1 ≤ k) (hn0 : 0 ≤ n) (hn : n < k)
    (hc : InBand k c) (h1 : InBand k s1) :
    warmup_fits n c s1 ∧ InBand k (warmup_stx1 n c s1) := by
  obtain ⟨a1, a2, a3⟩ := band_weighted hk hn0 (by omega) hc h1
  exact ⟨⟨a1, a2⟩, a3⟩

/-- The statistics part of `update` on a record with `0 <= n <= n_alpha` and
band statistics: no operation overflows, the new statistics are those of the
specification and lie in the band. -/
theorem band_update (data : EXP_SMOOTH_DATA) (c : Int)
    (hk : 1 ≤ data.n_alpha) (hkty : InInt32 data.n_alpha)
    (hn0 : 0 ≤ data.n) (hc : InBand data.n_alpha c)
    (h1 : InBand data.n_alpha data.stx1) (h2 : InBand data.n_alpha data.stx2) :
    (∀ z ∈ update_stx_ops data c, InInt32 z) ∧
    InBand data.n_alpha (update data c).stx1 ∧ InBand data.n_alpha (update data c).stx2 ∧
    (data.n < data.n_alpha →
      (update data c).stx1 = warmup_stx1 data.n c data.stx1 ∧
      (update data c).stx2 = warmup_stx1 data.n c data.stx1 ∧
      (update data c).ft = warmup_stx1 data.n c data.stx1 ∧
      (update data c).n = data.n + 1) ∧
    (data.n_alpha ≤ data.n →
      (update data c).stx1 = steady_stx1 data.n_alpha c data.stx1 ∧
      (update data c).stx2
        = steady_stx2 data.n_alpha (steady_stx1 data.n_alpha c data.stx1) data.stx2 ∧
      (update data c).n = data.n) := by
  rcases Int.lt_or_le data.n data.n_alpha with hlt | hge
  · obtain ⟨f, b⟩ := band_warmup hk hn0 hlt hc h1
    obtain ⟨e0, e1, e2, e3⟩ := update_warmup_exact data c hn0 hlt hkty f
    refine ⟨?_, by rw [e1]; exact b, by rw [e2]; exact b, fun _ => ⟨e1, e2, e3, e0⟩,
      fun h => by omega⟩
    rw [update_warmup_stx_ops data c hlt]
    exact update_warmup_ops_fit data c hn0 hlt hkty f
  · obtain ⟨f, b1, b2⟩ := band_steady hk hc h1 h2
    obtain ⟨e1, e2⟩ := update_steady_stx_exact data c hk hkty hge f
    refine ⟨update_steady_stx_ops_fit data c hk hkty hge f, by rw [e1]; exact b1,
      by rw [e2]; exact b2, fun h => by omega,
      fun _ => ⟨e1, e2, (update_steady data c hge).2.2.2.1⟩⟩

/-! ## Agreement with the computation over the integers -/

theorem check_xt_range_exact_eq {k : Int} (hk : 1 ≤ k) (x : Int) :
    check_xt_range_exact k x = check_xt_range k x := by
  unfold check_xt_range_exact check_xt_range
  rw [div32_hi hk, div32_lo hk]

theorem update_eq_exact_steady (data : EXP_SMOOTH_DATA) (c : Int)
    (hk : 1 ≤ data.n_alpha) (hkty : InInt32 data.n_alpha) (hn : data.n_alpha ≤ data.n)
    (hfit : steady_fits data.n_alpha c data.stx1 data.stx2) :
    update data c = update_exact data c := by
  obtain ⟨h1, h2, h3, h4, h5⟩ := hfit
  have hk1 : sub32 data.n_alpha 1 = data.n_alpha - 1 := by
    apply wrap32_eq
    unfold InInt32 INT32_MIN INT32_MAX at *
    omega
  have m1 : mul32 (data.n_alpha - 1) data.stx1 = (data.n_alpha - 1) * data.stx1 :=
    wrap32_eq h1
  have a1 : add32 c ((data.n_alpha - 1) * data.stx1) = c + (data.n_alpha - 1) * data.stx1 :=
    wrap32_eq h2
  have d1 : div32 (c + (data.n_alpha - 1) * data.stx1) data.n_alpha
      = Int.tdiv (c + (data.n_alpha - 1) * data.stx1) data.n_alpha := div32_eq h2 hk
  have m2 : mul32 (data.n_alpha - 1) data.stx2 = (data.n_alpha - 1) * data.stx2 :=
    wrap32_eq h3
  unfold steady_stx1 at h4 h5
  have a2 : add32 (Int.tdiv (c + (data.n_alpha - 1) * data.stx1) data.n_alpha)
        ((data.n_alpha - 1) * data.stx2)
      = Int.tdiv (c + (data.n_alpha - 1) * data.stx1) data.n_alpha
        + (data.n_alpha - 1) * data.stx2 := wrap32_eq h4
  have d2 : div32 (Int.tdiv (c + (data.n_alpha - 1) * data.stx1) data.n_alpha
        + (data.n_alpha - 1) * data.stx2) data.n_alpha
      = Int.tdiv (Int.tdiv (c + (data.n_alpha - 1) * data.stx1) data.n_alpha
        + (data.n_alpha - 1) * data.stx2) data.n_alpha := div32_eq h4 hk
  unfold update update_exact
  rw [if_pos (ge_iff_le.mpr hn), if_pos (ge_iff_le.mpr hn)]
  simp only [hk1, m1, a1, d1, m2, a2, d2]
  by_cases hgt : data.n_alpha > 1
  · obtain ⟨g1, g2, g3, g4⟩ := h5 hgt
    unfold steady_forecast steady_stx2 at g4
    unfold steady_stx2 at g2 g3
    rw [if_pos hgt] at g4
    rw [if_pos hgt, if_pos hgt]
    unfold mul32 sub32 add32
    rw [wrap32_eq g1, wrap32_eq g2, wrap32_eq g3, div32_eq g3 (by omega), wrap32_eq g4]
  · rw [if_neg hgt, if_neg hgt]

theorem update_eq_exact_warmup (data : EXP_SMOOTH_DATA) (c : Int)
    (hn0 : 0 ≤ data.n) (hn : data.n < data.n_alpha) (hkty : InInt32 data.n_alpha)
    (hfit : warmup_fits data.n c data.stx1) :
    update data c = update_exact data c := by
  obtain ⟨h1, h2⟩ := hfit
  have hn1 : add32 data.n 1 = data.n + 1 := by
    apply wrap32_eq
    unfold InInt32 INT32_MIN INT32_MAX at *
    omega
  have hn2 : sub32 (data.n + 1) 1 = data.n + 1 - 1 := by
    apply wrap32_eq
    unfold InInt32 INT32_MIN INT32_MAX at *
    omega
  have hn3 : data.n + 1 - 1 = data.n := by ring
  have m1 : mul32 data.n data.stx1 = data.n * data.stx1 := wrap32_eq h1
  have a1 : add32 c (data.n * data.stx1) = c + data.n * data.stx1 := wrap32_eq h2
  have d1 : div32 (c + data.n * data.stx1) (data.n + 1)
      = Int.tdiv (c + data.n * data.stx1) (data.n + 1) := div32_eq h2 (by omega)
  unfold update update_exact
  rw [if_neg (show ¬ data.n ≥ data.n_alpha by omega),
    if_neg (show ¬ data.n ≥ data.n_alpha by omega)]
  simp only [hn1, hn2, hn3, m1, a1, d1]

/-! ## The invariant of a run -/

theorem lag_bound_nonneg (k : Int) : 0 ≤ lag_bound k := by
  unfold lag_bound
  split_ifs <;> decide

/-- Window 2: the lag bound is re-established and the forecast expression
fits in 32 bits. -/
theorem lag_step_two (c s1 s2 : Int)
    (hc : InBand 2 c) (h1 : InBand 2 s1) (h2 : InBand 2 s2)
    (hl1 : -lag_bound 2 ≤ s1 - s2) (hl2 : s1 - s2 ≤ lag_bound 2) :
    forecast_fits 2 (steady_stx1 2 c s1) (steady_stx2 2 (steady_stx1 2 c s1) s2) ∧
    -lag_bound 2 ≤ steady_stx1 2 c s1 - steady_stx2 2 (steady_stx1 2 c s1) s2 ∧
    steady_stx1 2 c s1 - steady_stx2 2 (steady_stx1 2 c s1) s2 ≤ lag_bound 2 := by
  have elo : Int.tdiv INT32_MIN 2 = -1073741824 := by decide
  have ehi : Int.tdiv INT32_MAX 2 = 1073741823 := by decide
  have elag : lag_bound 2 = 805306368 := by decide
  unfold InBand at hc h1 h2
  rw [elo, ehi] at hc h1 h2
  rw [elag] at hl1 hl2 ⊢
  unfold forecast_fits InInt32 INT32_MIN INT32_MAX steady_stx2 steady_stx1
  obtain ⟨r1, e1, -, -, l1, u1⟩ := tdiv_spec (c + (2 - 1) * s1) (show (0:Int) < 2 by decide)
  generalize Int.tdiv (c + (2 - 1) * s1) 2 = S1 at *
  obtain ⟨r2, e2, -, -, l2, u2⟩ := tdiv_spec (S1 + (2 - 1) * s2) (show (0:Int) < 2 by decide)
  generalize Int.tdiv (S1 + (2 - 1) * s2) 2 = S2 at *
  rw [show (2:Int) - 1 = 1 by decide, Int.tdiv_one]
  omega

/-- Window 3: the lag bound is re-established and the forecast expression
fits in 32 bits. -/
theorem lag_step_three (c s1 s2 : Int)
    (hc : InBand 3 c) (h1 : InBand 3 s1) (h2 : InBand 3 s2)
    (hl1 : -lag_bound 3 ≤ s1 - s2) (hl2 : s1 - s2 ≤ lag_bound 3) :
    forecast_fits 3 (steady_stx1 3 c s1) (steady_stx2 3 (steady_stx1 3 c s1) s2) ∧
    -lag_bound 3 ≤ steady_stx1 3 c s1 - steady_stx2 3 (steady_stx1 3 c s1) s2 ∧
    steady_stx1 3 c s1 - steady_stx2 3 (steady_stx1 3 c s1) s2 ≤ lag_bound 3 := by
  have elo : Int.tdiv INT32_MIN 3 = -715827882 := by decide
  have ehi : Int.tdiv INT32_MAX 3 = 715827882 := by decide
  have elag : lag_bound 3 = 600000000 := by decide
  unfold InBand at hc h1 h2
  rw [elo, ehi] at hc h1 h2
  rw [elag] at hl1 hl2 ⊢
  unfold forecast_fits InInt32 INT32_MIN INT32_MAX steady_stx2 steady_stx1
  obtain ⟨r1, e1, -, -, l1, u1⟩ := tdiv_spec (c + (3 - 1) * s1) (show (0:Int) < 3 by decide)
  generalize Int.tdiv (c + (3 - 1) * s1) 3 = S1 at *
  obtain ⟨r2, e2, -, -, l2, u2⟩ := tdiv_spec (S1 + (3 - 1) * s2) (show (0:Int) < 3 by decide)
  generalize Int.tdiv (S1 + (3 - 1) * s2) 3 = S2 at *
  obtain ⟨r3, e3, -, -, l3, u3⟩ := tdiv_spec (S1 - S2) (show (0:Int) < 3 - 1 by decide)
  generalize Int.tdiv (S1 - S2) (3 - 1) = q at *
  omega

/-- Window 4 and above: band statistics make the forecast expression fit in
32 bits. -/
theorem forecast_fits_large {k S1 S2 : Int} (hk : 4 ≤ k)
    (h1 : InBand k S1) (h2 : InBand k S2) : forecast_fits k S1 S2 := by
  have hhi := mul_hi_le k
  have hlo := le_mul_lo k
  have bh := hi_bounds (show 1 ≤ k by omega)
  have bl := lo_bounds (show 1 ≤ k by omega)
  have e1 : 4 * Int.tdiv INT32_MAX k ≤ k * Int.tdiv INT32_MAX k :=
    mul_le_mul_of_nonneg_right hk bh.1
  have e2 : k * Int.tdiv INT32_MIN k ≤ 4 * Int.tdiv INT32_MIN k :=
    mul_le_mul_of_nonpos_right hk bl.2
  have eM : INT32_MAX = 2147483647 := rfl
  have em : INT32_MIN = -2147483648 := by decide
  unfold InBand at h1 h2
  have q := tdiv_between (a := S1 - S2) (m := k - 1) (L := -357913941) (U := 357913941)
    (by omega)
    (by
      have : (k - 1) * (-357913941) ≤ 3 * (-357913941) :=
        mul_le_mul_of_nonpos_right (by omega) (by decide)
      omega)
    (by
      have : 3 * (357913941 : Int) ≤ (k - 1) * 357913941 :=
        mul_le_mul_of_nonneg_right (by omega) (by decide)
      omega)
  unfold forecast_fits InInt32
  omega

/-- One steady-state step on band statistics within the lag bound. -/
theorem lag_step {k c s1 s2 : Int} (hk : 1 ≤ k)
    (hc : InBand k c) (h1 : InBand k s1) (h2 : InBand k s2)
    (hl1 : -lag_bound k ≤ s1 - s2) (hl2 : s1 - s2 ≤ lag_bound k) :
    (k > 1 → forecast_fits k (steady_stx1 k c s1) (steady_stx2 k (steady_stx1 k c s1) s2)) ∧
    -lag_bound k ≤ steady_stx1 k c s1 - steady_stx2 k (steady_stx1 k c s1) s2 ∧
    steady_stx1 k c s1 - steady_stx2 k (steady_stx1 k c s1) s2 ≤ lag_bound k := by
  obtain ⟨-, b1, b2⟩ := band_steady hk hc h1 h2
  by_cases k2 : k = 2
  · subst k2
    obtain ⟨a, b, c⟩ := lag_step_two c s1 s2 hc h1 h2 hl1 hl2
    exact ⟨fun _ => a, b, c⟩
  · by_cases k3 : k = 3
    · subst k3
      obtain ⟨a, b, c⟩ := lag_step_three c s1 s2 hc h1 h2 hl1 hl2
      exact ⟨fun _ => a, b, c⟩
    · have elag : lag_bound k = 4294967296 := by
        unfold lag_bound
        rw [if_neg k2, if_neg k3]
      have bh := hi_bounds hk
      have bl := lo_bounds hk
      have eM : INT32_MAX = 2147483647 := rfl
      have em : INT32_MIN = -2147483648 := by decide
      unfold InBand at b1 b2
      rw [elag]
      refine ⟨fun hgt => forecast_fits_large (by omega) b1 b2, by omega, by omega⟩

theorem inv_init {k : Int} (hk : 1 ≤ k) (r : Int) : Inv k (init_data k r) := by
  have h := lag_bound_nonneg k
  refine ⟨rfl, le_refl 0, ?_, band_zero hk, band_zero hk, ?_, ?_⟩
  · show (0:Int) ≤ k; omega
  · show -lag_bound k ≤ (0:Int) - 0; omega
  · show (0:Int) - 0 ≤ lag_bound k; omega

theorem inv_reset_check {k : Int} {data : EXP_SMOOTH_DATA} (h : Inv k data) (tv_sec : Int) :
    Inv k (reset_check data tv_sec) := by
  obtain ⟨a, b, c, d, e, f, g⟩ := h
  unfold Inv
  rw [reset_check_n_alpha, reset_check_stx1, reset_check_stx2, reset_check_n]
  refine ⟨a, ?_, ?_, d, e, f, g⟩ <;> split_ifs <;> omega

/-- `update` on a record of the invariant with a band observation: the
invariant holds again, no operation overflows, and the result is the one
computed over the integers. -/
theorem inv_update {k : Int} (data : EXP_SMOOTH_DATA) (c : Int)
    (hk : 1 ≤ k) (hkty : InInt32 k) (h : Inv k data) (hc : InBand k c) :
    Inv k (update data c) ∧ (∀ z ∈ update_ops data c, InInt32 z) ∧
    update data c = update_exact data c ∧
    (k ≤ data.n → k > 1 →
      forecast_fits k (update data c).stx1 (update data c).stx2) := by
  obtain ⟨a, n0, nk, b1, b2, l1, l2⟩ := h
  subst a
  rcases Int.lt_or_le data.n data.n_alpha with hlt | hge
  · obtain ⟨f, b⟩ := band_warmup hk n0 hlt hc b1
    obtain ⟨e0, e1, e2, e3⟩ := update_warmup_exact data c n0 hlt hkty f
    have hl := lag_bound_nonneg data.n_alpha
    refine ⟨⟨(update_warmup data c hlt).2.2.2.2.1, by omega, by omega, by rw [e1]; exact b,
      by rw [e2]; exact b, by rw [e1, e2]; omega, by rw [e1, e2]; omega⟩,
      update_warmup_ops_fit data c n0 hlt hkty f,
      update_eq_exact_warmup data c n0 hlt hkty f, fun h => by omega⟩
  · obtain ⟨f, s1, s2⟩ := band_steady hk hc b1 b2
    obtain ⟨g, m1, m2⟩ := lag_step hk hc b1 b2 l1 l2
    have hfit : steady_fits data.n_alpha c data.stx1 data.stx2 :=
      (steady_fits_iff _ _ _ _).mpr ⟨f, g⟩
    obtain ⟨e1, e2, -⟩ := update_steady_exact data c hk hkty hge hfit
    obtain ⟨-, -, -, en, ek, -⟩ := update_steady data c hge
    refine ⟨⟨ek, by omega, by omega, by rw [e1]; exact s1, by rw [e2]; exact s2,
      by rw [e1, e2]; exact m1, by rw [e1, e2]; exact m2⟩,
      update_steady_ops_fit data c hk hkty hge hfit,
      update_eq_exact_steady data c hk hkty hge hfit, fun _ hgt => ?_⟩
    rw [e1, e2]
    exact g hgt

/-- One call on a record of the invariant. -/
theorem inv_step {k : Int} (data : EXP_SMOOTH_DATA) (xt tv_sec : Int)
    (hk : 1 ≤ k) (hkty : InInt32 k) (h : Inv k data) :
    Inv k (time_series_smooth data xt tv_sec) ∧
    (∀ z ∈ time_series_smooth_ops data xt tv_sec, InInt32 z) ∧
    time_series_smooth data xt tv_sec = time_series_smooth_exact data xt tv_sec := by
  have hka : data.n_alpha = k := h.1
  have hc : InBand k (check_xt_range data.n_alpha xt) := by
    rw [hka, check_xt_range_eq_clamp hk]
    exact clamp_inBand hk xt
  obtain ⟨a, b, c, -⟩ := inv_update (reset_check data tv_sec)
    (check_xt_range data.n_alpha xt) hk hkty (inv_reset_check h tv_sec) hc
  refine ⟨a, ?_, ?_⟩
  · intro z hz
    unfold time_series_smooth_ops at hz
    rcases List.mem_append.mp hz with h1 | h1
    · exact check_xt_range_ops_fit (by rw [hka]; exact hk) z h1
    · exact b z h1
  · unfold time_series_smooth time_series_smooth_exact
    rw [check_xt_range_exact_eq (by rw [hka]; exact hk)]
    exact c

/-- A run from a record of the invariant. -/
theorem inv_run {k : Int} (hk : 1 ≤ k) (hkty : InInt32 k) (obs : List (Int × Int)) :
    ∀ data : EXP_SMOOTH_DATA, Inv k data →
      Inv k (smooth_run data obs) ∧
      (∀ z ∈ run_ops data obs, InInt32 z) ∧
      smooth_run data obs = smooth_run_exact data obs ∧
      forecasts data obs = forecasts_exact data obs := by
  induction obs with
  | nil =>
    intro data h
    exact ⟨h, fun z hz => by simp [run_ops] at hz, rfl, rfl⟩
  | cons p rest ih =>
    intro data h
    obtain ⟨xt, t⟩ := p
    obtain ⟨a, b, c⟩ := inv_step data xt t hk hkty h
    obtain ⟨i1, i2, i3, i4⟩ := ih _ a
    refine ⟨i1, ?_, ?_, ?_⟩
    · intro z hz
      simp only [run_ops, List.mem_append] at hz
      rcases hz with h1 | h1
      · exact b z h1
      · exact i2 z h1
    · simp only [smooth_run, smooth_run_exact]
      rw [← c]
      exact i3
    · simp only [forecasts, forecasts_exact]
      rw [← c, i4]

/-- The forecast that `update` stores on a record of the invariant: the new
`stx1` in warm-up, the forecast expression on the new statistics, computed
without overflow, in the steady state. -/
theorem inv_update_ft {k : Int} (data : EXP_SMOOTH_DATA) (c : Int)
    (hk : 1 ≤ k) (hkty : InInt32 k) (h : Inv k data) (hc : InBand k c) :
    (data.n < k → (update data c).ft = (update data c).stx1) ∧
    (k ≤ data.n →
      (update data c).ft = steady_forecast k (update data c).stx1 (update data c).stx2 ∧
      InInt32 (steady_forecast k (update data c).stx1 (update data c).stx2)) := by
  obtain ⟨a, n0, nk, b1, b2, l1, l2⟩ := h
  subst a
  refine ⟨fun hlt => (update_warmup data c hlt).2.2.2.1, fun hge => ?_⟩
  obtain ⟨f, s1, s2⟩ := band_steady hk hc b1 b2
  obtain ⟨g, -, -⟩ := lag_step hk hc b1 b2 l1 l2
  have hfit : steady_fits data.n_alpha c data.stx1 data.stx2 :=
    (steady_fits_iff _ _ _ _).mpr ⟨f, g⟩
  obtain ⟨e1, e2, e3⟩ := update_steady_exact data c hk hkty hge hfit
  rw [e1, e2]
  refine ⟨e3, ?_⟩
  by_cases hgt : data.n_alpha > 1
  · have := (g hgt).2.2.2
    unfold steady_forecast
    rw [if_pos hgt]
    exact this
  · unfold steady_forecast
    rw [if_neg hgt]
    exact band_inInt32 hk s1.1 s1.2

/-! ## Warm-up as a running average -/

/-- The first call on a record whose counter is zero after the staleness
check: the statistics become the clamped observation and the invariant
holds. -/
theorem first_step {k : Int} (data : EXP_SMOOTH_DATA) (xt tv_sec : Int)
    (hk : 1 ≤ k) (hka : data.n_alpha = k) (hn : (reset_check data tv_sec).n = 0) :
    (time_series_smooth data xt tv_sec).stx1 = clamp k xt ∧
    (time_series_smooth data xt tv_sec).ft = clamp k xt ∧
    (time_series_smooth data xt tv_sec).n = 1 ∧
    Inv k (time_series_smooth data xt tv_sec) := by
  subst hka
  have hl := lag_bound_nonneg data.n_alpha
  have hb := clamp_inBand hk xt
  obtain ⟨fa, -⟩ := time_series_smooth_frame data xt tv_sec
  have h := update_first (reset_check data tv_sec) (clamp data.n_alpha xt) hn
    (by rw [reset_check_n_alpha]; exact hk) (clamp_inInt32 hk xt)
  have e : time_series_smooth data xt tv_sec
      = update (reset_check data tv_sec) (clamp data.n_alpha xt) := by
    unfold time_series_smooth
    rw [check_xt_range_eq_clamp hk]
  rw [← e] at h
  obtain ⟨e0, e1, e2, e3⟩ := h
  refine ⟨e1, e3, e0, fa, by omega, by omega, by rw [e1]; exact hb, by rw [e2]; exact hb,
    by rw [e1, e2]; omega, by rw [e1, e2]; omega⟩

/-- Calls that stay within warm-up and find no reset compute the running
average of the specification. -/
theorem warmup_run {k : Int} (hk : 1 ≤ k) (hkty : InInt32 k) (obs : List (Int × Int)) :
    ∀ data : EXP_SMOOTH_DATA, Inv k data → data.n + obs.length ≤ k →
      no_reset data obs = true →
      (smooth_run data obs).stx1 = running_avg_from data.n data.stx1 (clamped k obs) ∧
      (obs ≠ [] → (smooth_run data obs).ft = (smooth_run data obs).stx1) := by
  induction obs with
  | nil =>
    intro data _ _ _
    exact ⟨rfl, fun h => absurd rfl h⟩
  | cons p rest ih =>
    intro data h hlen hq
    obtain ⟨xt, t⟩ := p
    simp only [no_reset, Bool.and_eq_true, Bool.not_eq_true'] at hq
    simp only [List.length_cons, Nat.cast_add, Nat.cast_one] at hlen
    have hka : data.n_alpha = k := h.1
    have hn : (reset_check data t).n = data.n := by
      rw [reset_check_n, hq.1]; rfl
    have hi := inv_reset_check h t
    have hc : InBand k (clamp k xt) := clamp_inBand hk xt
    have e : time_series_smooth data xt t = update (reset_check data t) (clamp k xt) := by
      unfold time_series_smooth
      rw [hka, check_xt_range_eq_clamp hk]
    have hu := (band_update (reset_check data t) (clamp k xt)
      (by rw [hi.1]; exact hk) (by rw [hi.1]; exact hkty) hi.2.1
      (by rw [hi.1]; exact hc) (by rw [hi.1]; exact hi.2.2.2.1)
      (by rw [hi.1]; exact hi.2.2.2.2.1)).2.2.2.1 (by rw [hi.1, hn]; omega)
    rw [← e, hn, reset_check_stx1] at hu
    obtain ⟨u1, -, u3, u4⟩ := hu
    obtain ⟨a, -⟩ := inv_step data xt t hk hkty h
    obtain ⟨i1, i2⟩ := ih (time_series_smooth data xt t) a (by rw [u4]; omega) hq.2
    simp only [smooth_run, clamped, List.map_cons, running_avg_from]
    refine ⟨?_, fun _ => ?_⟩
    · rw [i1, u1, u4]
      rfl
    · rcases rest with _ | ⟨q, rest2⟩
      · simp only [smooth_run]
        rw [u3, u1]
      · exact i2 (by simp)

/-- The running average times the number of samples differs from their sum
by at most `n * (n - 1) / 2`. -/
theorem running_avg_error (cs : List Int) :
    ∀ n a S : Int, 0 ≤ n →
      -(n * (n - 1)) ≤ 2 * (n * a - S) → 2 * (n * a - S) ≤ n * (n - 1) →
      -((n + cs.length) * (n + cs.length - 1))
        ≤ 2 * ((n + cs.length) * running_avg_from n a cs - (S + cs.sum)) ∧
      2 * ((n + cs.length) * running_avg_from n a cs - (S + cs.sum))
        ≤ (n + cs.length) * (n + cs.length - 1) := by
  induction cs with
  | nil =>
    intro n a S _ h1 h2
    simp only [List.length_nil, Nat.cast_zero, add_zero, running_avg_from, List.sum_nil]
    exact ⟨h1, h2⟩
  | cons c rest ih =>
    intro n a S hn h1 h2
    obtain ⟨r, e, -, -, r1, r2⟩ := tdiv_spec (c + n * a) (show 0 < n + 1 by omega)
    have key := ih (n + 1) (Int.tdiv (c + n * a) (n + 1)) (S + c) (by omega)
      (by
        have : (n + 1) * (n + 1 - 1) = n * (n - 1) + 2 * n := by ring
        rw [this]
        omega)
      (by
        have : (n + 1) * (n + 1 - 1) = n * (n - 1) + 2 * n := by ring
        rw [this]
        omega)
    simp only [List.length_cons, Nat.cast_add, Nat.cast_one, running_avg_from, List.sum_cons]
    have e1 : n + ((rest.length : Int) + 1) = n + 1 + rest.length := by ring
    have e2 : S + (c + rest.sum) = S + c + rest.sum := by ring
    rw [e1, e2]
    exact key

/-! ## Statistics between the data -/

/-- One call on a record of the invariant: the new `stx1` lies between the
clamped observation and the old `stx1`, the new `stx2` between the new `stx1`
and the old `stx2`; when the counter is zero after the staleness check both
are the clamped observation. -/
theorem between_step {k : Int} (data : EXP_SMOOTH_DATA) (xt tv_sec : Int)
    (hk : 1 ≤ k) (hkty : InInt32 k) (h : Inv k data) :
    (min (clamp k xt) data.stx1 ≤ (time_series_smooth data xt tv_sec).stx1 ∧
     (time_series_smooth data xt tv_sec).stx1 ≤ max (clamp k xt) data.stx1) ∧
    (min (time_series_smooth data xt tv_sec).stx1 data.stx2
        ≤ (time_series_smooth data xt tv_sec).stx2 ∧
     (time_series_smooth data xt tv_sec).stx2
        ≤ max (time_series_smooth data xt tv_sec).stx1 data.stx2) ∧
    ((reset_check data tv_sec).n = 0 →
      (time_series_smooth data xt tv_sec).stx1 = clamp k xt ∧
      (time_series_smooth data xt tv_sec).stx2 = clamp k xt) := by
  have hka : data.n_alpha = k := h.1
  have hi := inv_reset_check h tv_sec
  have hc : InBand k (clamp k xt) := clamp_inBand hk xt
  have e : time_series_smooth data xt tv_sec
      = update (reset_check data tv_sec) (clamp k xt) := by
    unfold time_series_smooth
    rw [hka, check_xt_range_eq_clamp hk]
  have hu := band_update (reset_check data tv_sec) (clamp k xt)
    (by rw [hi.1]; exact hk) (by rw [hi.1]; exact hkty) hi.2.1
    (by rw [hi.1]; exact hc) (by rw [hi.1]; exact hi.2.2.2.1)
    (by rw [hi.1]; exact hi.2.2.2.2.1)
  rw [← e, hi.1, reset_check_stx1, reset_check_stx2] at hu
  obtain ⟨-, -, -, hw, hs⟩ := hu
  have hn0 : 0 ≤ (reset_check data tv_sec).n := hi.2.1
  rcases Int.lt_or_le (reset_check data tv_sec).n k with hlt | hge
  · obtain ⟨u1, u2, -, -⟩ := hw hlt
    have b := weighted_avg_between (j := (reset_check data tv_sec).n) (c := clamp k xt)
      (s := data.stx1) (L := min (clamp k xt) data.stx1) (U := max (clamp k xt) data.stx1)
      hn0 (min_le_left _ _) (le_max_left _ _) (min_le_right _ _) (le_max_right _ _)
    refine ⟨by rw [u1]; exact b, ?_, fun hz => ?_⟩
    · rw [u2, u1]
      exact ⟨min_le_left _ _, le_max_left _ _⟩
    · rw [u1, u2, hz, warmup_stx1_zero]
      exact ⟨rfl, rfl⟩
  · obtain ⟨u1, u2, -⟩ := hs hge
    have hkk : k - 1 + 1 = k := by ring
    have b1 := weighted_avg_between (j := k - 1) (c := clamp k xt)
      (s := data.stx1) (L := min (clamp k xt) data.stx1) (U := max (clamp k xt) data.stx1)
      (by omega) (min_le_left _ _) (le_max_left _ _) (min_le_right _ _) (le_max_right _ _)
    rw [hkk] at b1
    have b2 := weighted_avg_between (j := k - 1) (c := steady_stx1 k (clamp k xt) data.stx1)
      (s := data.stx2) (L := min (steady_stx1 k (clamp k xt) data.stx1) data.stx2)
      (U := max (steady_stx1 k (clamp k xt) data.stx1) data.stx2)
      (by omega) (min_le_left _ _) (le_max_left _ _) (min_le_right _ _) (le_max_right _ _)
    rw [hkk] at b2
    refine ⟨by rw [u1]; exact b1, by rw [u2, u1]; exact b2, fun hz => by omega⟩

/-- Along a run the statistics stay in every interval that contains the
clamped observations. -/
theorem between_run {k : Int} (hk : 1 ≤ k) (hkty : InInt32 k) (L U : Int)
    (obs : List (Int × Int)) :
    ∀ data : EXP_SMOOTH_DATA, Inv k data →
      (data.n = 0 ∨ (L ≤ data.stx1 ∧ data.stx1 ≤ U ∧ L ≤ data.stx2 ∧ data.stx2 ≤ U)) →
      (∀ p ∈ obs, L ≤ clamp k p.1 ∧ clamp k p.1 ≤ U) → obs ≠ [] →
      L ≤ (smooth_run data obs).stx1 ∧ (smooth_run data obs).stx1 ≤ U ∧
      L ≤ (smooth_run data obs).stx2 ∧ (smooth_run data obs).stx2 ≤ U := by
  induction obs with
  | nil => intro data _ _ _ hne; exact absurd rfl hne
  | cons p rest ih =>
    intro data h hj hall _
    obtain ⟨xt, t⟩ := p
    obtain ⟨hc1, hc2⟩ := hall (xt, t) (List.mem_cons_self _ _)
    simp only at hc1 hc2
    obtain ⟨⟨a1, a2⟩, ⟨b1, b2⟩, z⟩ := between_step data xt t hk hkty h
    obtain ⟨hi, -⟩ := inv_step data xt t hk hkty h
    have hn : (reset_check data t).n = 0 ∨ (reset_check data t).n = data.n := by
      rw [reset_check_n]
      split_ifs
      · exact Or.inl rfl
      · exact Or.inr rfl
    have step : L ≤ (time_series_smooth data xt t).stx1 ∧
        (time_series_smooth data xt t).stx1 ≤ U ∧
        L ≤ (time_series_smooth data xt t).stx2 ∧
        (time_series_smooth data xt t).stx2 ≤ U := by
      by_cases h0 : (reset_check data t).n = 0
      · obtain ⟨z1, z2⟩ := z h0
        rw [z1, z2]
        exact ⟨hc1, hc2, hc1, hc2⟩
      · have hd : data.n ≠ 0 := by
          rcases hn with h1 | h1
          · exact absurd h1 h0
          · rw [← h1]; exact h0
        obtain ⟨s1, s2, s3, s4⟩ := hj.resolve_left hd
        have m1 : L ≤ min (clamp k xt) data.stx1 := le_min hc1 s1
        have m2 : max (clamp k xt) data.stx1 ≤ U := max_le hc2 s2
        have l1 : L ≤ (time_series_smooth data xt t).stx1 := le_trans m1 a1
        have l2 : (time_series_smooth data xt t).stx1 ≤ U := le_trans a2 m2
        exact ⟨l1, l2, le_trans (le_min l1 s3) b1, le_trans b2 (max_le l2 s4)⟩
    rcases rest with _ | ⟨q, rest2⟩
    · simpa only [smooth_run] using step
    · simp only [smooth_run]
      exact ih (time_series_smooth data xt t) hi (Or.inr step)
        (fun p hp => hall p (List.mem_cons_of_mem _ hp)) (by simp)

/-! ## Negated records -/

theorem lo_le_neg_hi (k : Int) (hk : 1 ≤ k) :
    Int.tdiv INT32_MIN k ≤ -Int.tdiv INT32_MAX k := by
  have h := mul_hi_le k
  have eM : INT32_MAX = 2147483647 := rfl
  have em : INT32_MIN = -2147483648 := by decide
  have h0 : k * INT32_MIN ≤ 1 * INT32_MIN :=
    mul_le_mul_of_nonpos_right hk (by decide)
  exact (tdiv_between (a := INT32_MIN) (m := k) (L := INT32_MIN)
    (U := -Int.tdiv INT32_MAX k) (by omega) (by omega)
    (by rw [mul_neg]; omega)).2

theorem sym_inBand {k z : Int} (hk : 1 ≤ k)
    (h1 : -Int.tdiv INT32_MAX k ≤ z) (h2 : z ≤ Int.tdiv INT32_MAX k) :
    InBand k z ∧ InBand k (-z) := by
  have := lo_le_neg_hi k hk
  unfold InBand
  omega

theorem steady_stx1_neg (k c s : Int) : steady_stx1 k (-c) (-s) = -steady_stx1 k c s := by
  unfold steady_stx1
  rw [show -c + (k - 1) * -s = -(c + (k - 1) * s) by ring, Int.neg_tdiv]

theorem steady_stx2_neg (k c s : Int) : steady_stx2 k (-c) (-s) = -steady_stx2 k c s :=
  steady_stx1_neg k c s

theorem steady_forecast_neg (k a b : Int) :
    steady_forecast k (-a) (-b) = -steady_forecast k a b := by
  unfold steady_forecast
  split_ifs
  · rw [show -a - -b = -(a - b) by ring, Int.neg_tdiv]
    ring
  · rfl

theorem warmup_stx1_neg (n c s : Int) : warmup_stx1 n (-c) (-s) = -warmup_stx1 n c s := by
  unfold warmup_stx1
  rw [show -c + n * -s = -(c + n * s) by ring, Int.neg_tdiv]

/-- `update` on a record and on its negation, with band statistics and
observation on both sides and, in the steady state with a window above one, a
forecast expression that fits in 32 bits on both sides. -/
theorem update_neg (d e : EXP_SMOOTH_DATA) (c : Int)
    (hk : 1 ≤ d.n_alpha) (hkty : InInt32 d.n_alpha) (hn0 : 0 ≤ d.n)
    (eka : e.n_alpha = d.n_alpha) (en : e.n = d.n)
    (e1 : e.stx1 = -d.stx1) (e2 : e.stx2 = -d.stx2)
    (hc : InBand d.n_alpha c ∧ InBand d.n_alpha (-c))
    (h1 : InBand d.n_alpha d.stx1 ∧ InBand d.n_alpha (-d.stx1))
    (h2 : InBand d.n_alpha d.stx2 ∧ InBand d.n_alpha (-d.stx2))
    (hfit : d.n_alpha ≤ d.n → d.n_alpha > 1 →
      forecast_fits d.n_alpha (steady_stx1 d.n_alpha c d.stx1)
        (steady_stx2 d.n_alpha (steady_stx1 d.n_alpha c d.stx1) d.stx2) ∧
      forecast_fits d.n_alpha (-steady_stx1 d.n_alpha c d.stx1)
        (-steady_stx2 d.n_alpha (steady_stx1 d.n_alpha c d.stx1) d.stx2)) :
    (update e (-c)).stx1 = -(update d c).stx1 ∧
    (update e (-c)).stx2 = -(update d c).stx2 ∧
    (update e (-c)).ft = -(update d c).ft ∧
    (update e (-c)).n = (update d c).n := by
  rcases Int.lt_or_le d.n d.n_alpha with hlt | hge
  · obtain ⟨f, -⟩ := band_warmup hk hn0 hlt hc.1 h1.1
    obtain ⟨g, -⟩ := band_warmup hk hn0 hlt hc.2 h1.2
    obtain ⟨a0, a1, a2, a3⟩ := update_warmup_exact d c hn0 hlt hkty f
    obtain ⟨b0, b1, b2, b3⟩ := update_warmup_exact e (-c) (by omega) (by omega)
      (by rw [eka]; exact hkty) (by rw [en, e1]; exact g)
    rw [en, e1, warmup_stx1_neg] at b1 b2 b3
    rw [en] at b0
    exact ⟨by rw [b1, a1], by rw [b2, a2], by rw [b3, a3], by rw [b0, a0]⟩
  · obtain ⟨f, -, -⟩ := band_steady hk hc.1 h1.1 h2.1
    obtain ⟨g, -, -⟩ := band_steady hk hc.2 h1.2 h2.2
    have ff : steady_fits d.n_alpha c d.stx1 d.stx2 :=
      (steady_fits_iff _ _ _ _).mpr ⟨f, fun hgt => (hfit hge hgt).1⟩
    have gg : steady_fits d.n_alpha (-c) (-d.stx1) (-d.stx2) := by
      refine (steady_fits_iff _ _ _ _).mpr ⟨g, fun hgt => ?_⟩
      rw [steady_stx1_neg, steady_stx2_neg]
      exact (hfit hge hgt).2
    obtain ⟨a1, a2, a3⟩ := update_steady_exact d c hk hkty hge ff
    obtain ⟨b1, b2, b3⟩ := update_steady_exact e (-c) (by omega) (by rw [eka]; exact hkty)
      (by omega) (by rw [eka, e1, e2]; exact gg)
    rw [eka, e1, e2, steady_stx1_neg, steady_stx2_neg] at b2 b3
    rw [eka, e1, steady_stx1_neg] at b1
    rw [steady_forecast_neg] at b3
    have an := (update_steady d c hge).2.2.2.1
    have bn := (update_steady e (-c) (by omega)).2.2.2.1
    exact ⟨by rw [b1, a1], by rw [b2, a2], by rw [b3, a3], by rw [bn, an, en]⟩

theorem reset_check_negate (data : EXP_SMOOTH_DATA) (tv_sec : Int) :
    (reset_check (negate data) tv_sec).n = (reset_check data tv_sec).n ∧
    (reset_check (negate data) tv_sec).n_alpha = data.n_alpha ∧
    (reset_check (negate data) tv_sec).stx1 = -data.stx1 ∧
    (reset_check (negate data) tv_sec).stx2 = -data.stx2 := by
  have hs : stale (negate data) tv_sec = stale data tv_sec := rfl
  refine ⟨?_, ?_, ?_, ?_⟩
  · rw [reset_check_n, reset_check_n, hs]; rfl
  · rw [reset_check_n_alpha]; rfl
  · rw [reset_check_stx1]; rfl
  · rw [reset_check_stx2]; rfl

/-! ## Claims -/

/-- C1 (as amended): in the steady state (window `k >= 1`, `n >= k`, record
not stale), provided no product, sum or difference of the formulas leaves the
signed 32-bit range, the call sets `stx1 = (c + (k-1)*stx1) / k`,
`stx2 = (new stx1 + (k-1)*stx2) / k` and
`ft = 2*stx1 - stx2 + (stx1 - stx2)/(k-1)` for `k > 1`, `ft = stx1` for
`k = 1`, with `c` the clamped observation and truncating division, and leaves
`n` unchanged. -/
theorem steady_state_update (data : EXP_SMOOTH_DATA) (xt tv_sec : Int)
    (hk : 1 ≤ data.n_alpha) (hkty : InInt32 data.n_alpha) (hn : data.n_alpha ≤ data.n)
    (hfresh : tv_sec - data.last_update_time ≤ data.reset_time)
    (hfit : steady_fits data.n_alpha (clamp data.n_alpha xt) data.stx1 data.stx2) :
    (time_series_smooth data xt tv_sec).stx1
      = steady_stx1 data.n_alpha (clamp data.n_alpha xt) data.stx1 ∧
    (time_series_smooth data xt tv_sec).stx2
      = steady_stx2 data.n_alpha (time_series_smooth data xt tv_sec).stx1 data.stx2 ∧
    (time_series_smooth data xt tv_sec).ft
      = steady_forecast data.n_alpha (time_series_smooth data xt tv_sec).stx1
          (time_series_smooth data xt tv_sec).stx2 ∧
    (time_series_smooth data xt tv_sec).n = data.n := by
  rw [time_series_smooth_fresh data xt tv_sec (stale_eq_false hfresh),
    check_xt_range_eq_clamp hk]
  obtain ⟨e1, e2, e3⟩ := update_steady_exact
    { data with last_update_time := wrap32 tv_sec } (clamp data.n_alpha xt) hk hkty hn hfit
  refine ⟨e1, ?_, ?_,
    (update_steady { data with last_update_time := wrap32 tv_sec } _ hn).2.2.2.1⟩
  · rw [e2, e1]
  · rw [e3, e2, e1]

/-- C1, witness: window 10, `n = 10`, `stx1 = 100`, `stx2 = 90`, observation
200 at the time of the last update: `stx1 = 110`, `stx2 = 92`, `ft = 130`. -/
theorem steady_state_update_witness :
    (time_series_smooth
      { n_alpha := 10, stx1 := 100, stx2 := 90, n := 10, ft := 0, reset_time := 5,
        last_update_time := 7 } 200 7).stx1 = 110 ∧
    (time_series_smooth
      { n_alpha := 10, stx1 := 100, stx2 := 90, n := 10, ft := 0, reset_time := 5,
        last_update_time := 7 } 200 7).stx2 = 92 ∧
    (time_series_smooth
      { n_alpha := 10, stx1 := 100, stx2 := 90, n := 10, ft := 0, reset_time := 5,
        last_update_time := 7 } 200 7).ft = 130 := by
  have h := steady_state_update
    { n_alpha := 10, stx1 := 100, stx2 := 90, n := 10, ft := 0, reset_time := 5,
      last_update_time := 7 } 200 7 (by decide) (by decide) (by decide) (by decide)
    (by decide)
  obtain ⟨h1, h2, h3, -⟩ := h
  rw [h1] at h2
  rw [h2, h1] at h3
  exact ⟨h1.trans (by decide), h2.trans (by decide), h3.trans (by decide)⟩

/-- C1, counterexample: window 10, `n = 10`, `stx1 = INT32_MAX`, observation
0, record not stale.  The product `9 * stx1` overflows and the stored `stx1`
is 214748363, not `(0 + 9 * INT32_MAX) / 10 = 1932735282`. -/
theorem steady_state_update_overflow :
    (1:Int) ≤ 10 ∧ (10:Int) ≤ 10 ∧
    stale { n_alpha := 10, stx1 := INT32_MAX, stx2 := 0, n := 10, ft := 0,
            reset_time := 5, last_update_time := 0 } 0 = false ∧
    (time_series_smooth
      { n_alpha := 10, stx1 := INT32_MAX, stx2 := 0, n := 10, ft := 0,
        reset_time := 5, last_update_time := 0 } 0 0).stx1 = 214748363 ∧
    steady_stx1 10 (clamp 10 0) INT32_MAX = 1932735282 ∧
    (time_series_smooth
      { n_alpha := 10, stx1 := INT32_MAX, stx2 := 0, n := 10, ft := 0,
        reset_time := 5, last_update_time := 0 } 0 0).stx1
      ≠ steady_stx1 10 (clamp 10 0) INT32_MAX := by
  decide

/-- C2 (as amended): in warm-up (window `k >= 1`, counter after the staleness
check `0 <= n < k`), provided neither `n * stx1` nor `c + n * stx1` leaves the
signed 32-bit range, the call sets the counter to `n + 1`, `stx1` to
`(c + n * stx1) / (n + 1)` with truncating division, and `stx2` and `ft` to
the new `stx1`; `c` is the clamped observation. -/
theorem warmup_update (data : EXP_SMOOTH_DATA) (xt tv_sec : Int)
    (hk : 1 ≤ data.n_alpha) (hkty : InInt32 data.n_alpha)
    (hn0 : 0 ≤ (reset_check data tv_sec).n)
    (hn : (reset_check data tv_sec).n < data.n_alpha)
    (hfit : warmup_fits (reset_check data tv_sec).n (clamp data.n_alpha xt) data.stx1) :
    (time_series_smooth data xt tv_sec).n = (reset_check data tv_sec).n + 1 ∧
    (time_series_smooth data xt tv_sec).stx1
      = Int.tdiv (clamp data.n_alpha xt + (reset_check data tv_sec).n * data.stx1)
          ((reset_check data tv_sec).n + 1) ∧
    (time_series_smooth data xt tv_sec).stx2 = (time_series_smooth data xt tv_sec).stx1 ∧
    (time_series_smooth data xt tv_sec).ft = (time_series_smooth data xt tv_sec).stx1 := by
  unfold time_series_smooth
  rw [check_xt_range_eq_clamp hk]
  have hfit2 : warmup_fits (reset_check data tv_sec).n (clamp data.n_alpha xt)
      (reset_check data tv_sec).stx1 := by rw [reset_check_stx1]; exact hfit
  obtain ⟨e0, e1, e2, e3⟩ := update_warmup_exact (reset_check data tv_sec)
    (clamp data.n_alpha xt) hn0 (by rw [reset_check_n_alpha]; exact hn)
    (by rw [reset_check_n_alpha]; exact hkty) hfit2
  rw [reset_check_stx1] at e1 e2 e3
  exact ⟨e0, e1, by rw [e2, e1], by rw [e3, e1]⟩

/-- C2, witness: from `stx1 = -1`, `n = 1`, the observation 0 gives
`stx1 = (0 + 1 * -1) / 2 = 0` (floor division would give -1), `n = 2`. -/
theorem warmup_update_witness :
    (time_series_smooth
      { n_alpha := 10, stx1 := -1, stx2 := -1, n := 1, ft := -1, reset_time := 5,
        last_update_time := 7 } 0 8).stx1 = 0 ∧
    (time_series_smooth
      { n_alpha := 10, stx1 := -1, stx2 := -1, n := 1, ft := -1, reset_time := 5,
        last_update_time := 7 } 0 8).n = 2 ∧
    Int.fdiv (0 + 1 * -1) 2 = -1 := by
  have h := warmup_update
    { n_alpha := 10, stx1 := -1, stx2 := -1, n := 1, ft := -1, reset_time := 5,
      last_update_time := 7 } 0 8 (by decide) (by decide) (by decide) (by decide)
    (by decide)
  exact ⟨h.2.1.trans (by decide), h.1.trans (by decide), by decide⟩

/-- C2, counterexample: window 10, `n = 5`, `stx1 = INT32_MAX`, observation 0,
record not stale.  The product `5 * stx1` overflows and the stored `stx1` is
357913940, not `(0 + 5 * INT32_MAX) / 6 = 1789569705`. -/
theorem warmup_update_overflow :
    (reset_check { n_alpha := 10, stx1 := INT32_MAX, stx2 := INT32_MAX, n := 5,
                   ft := INT32_MAX, reset_time := 5, last_update_time := 0 } 0).n = 5 ∧
    (time_series_smooth
      { n_alpha := 10, stx1 := INT32_MAX, stx2 := INT32_MAX, n := 5, ft := INT32_MAX,
        reset_time := 5, last_update_time := 0 } 0 0).stx1 = 357913940 ∧
    Int.tdiv (clamp 10 0 + 5 * INT32_MAX) (5 + 1) = 1789569705 ∧
    (time_series_smooth
      { n_alpha := 10, stx1 := INT32_MAX, stx2 := INT32_MAX, n := 5, ft := INT32_MAX,
        reset_time := 5, last_update_time := 0 } 0 0).stx1
      ≠ Int.tdiv (clamp 10 0 + 5 * INT32_MAX) (5 + 1) := by
  decide

/-- C3: with window `k >= 1`, a call with observation `x` yields the same
record (forecast included) as a call with `clamp x`, where the range check of
the code is `clamp x = min (max x (INT32_MIN / k)) (INT32_MAX / k)`; an
observation inside the band is used unchanged, and `clamp` is idempotent. -/
theorem saturation (data : EXP_SMOOTH_DATA) (xt tv_sec : Int) (hk : 1 ≤ data.n_alpha) :
    time_series_smooth data xt tv_sec
      = time_series_smooth data (clamp data.n_alpha xt) tv_sec ∧
    check_xt_range data.n_alpha xt
      = min (max xt (Int.tdiv INT32_MIN data.n_alpha)) (Int.tdiv INT32_MAX data.n_alpha) ∧
    (Int.tdiv INT32_MIN data.n_alpha ≤ xt → xt ≤ Int.tdiv INT32_MAX data.n_alpha →
      check_xt_range data.n_alpha xt = xt) ∧
    check_xt_range data.n_alpha (check_xt_range data.n_alpha xt)
      = check_xt_range data.n_alpha xt := by
  have hb := clamp_bounds hk xt
  have hidem : clamp data.n_alpha (clamp data.n_alpha xt) = clamp data.n_alpha xt :=
    clamp_of_mem hb.1 hb.2
  refine ⟨?_, ?_, ?_, ?_⟩
  · unfold time_series_smooth
    rw [check_xt_range_eq_clamp hk, check_xt_range_eq_clamp hk, hidem]
  · rw [check_xt_range_eq_clamp hk]; rfl
  · intro h1 h2
    rw [check_xt_range_eq_clamp hk]
    exact clamp_of_mem h1 h2
  · rw [check_xt_range_eq_clamp hk, check_xt_range_eq_clamp hk, hidem]

/-- C3, witness: window 10, observation `INT32_MAX` is absorbed as
214748364. -/
theorem saturation_witness :
    time_series_smooth (init_data 10 5) INT32_MAX 3
      = time_series_smooth (init_data 10 5) 214748364 3 ∧
    check_xt_range 10 INT32_MAX = 214748364 ∧ check_xt_range 10 (-7) = -7 := by
  have h := saturation (init_data 10 5) INT32_MAX 3 (by decide)
  refine ⟨h.1.trans (by decide), by decide, ?_⟩
  exact (saturation (init_data 10 5) (-7) 3 (by decide)).2.2.1 (by decide) (by decide)

/-- C4: with window `k >= 1`, a call that finds the record stale
(`tv_sec - last_update_time > reset_time`) is a fresh warm-up step: afterwards
`n = 1` and `stx1 = stx2 = ft = clamp x`, whatever the old statistics were; so
two records that differ only in `stx1`, `stx2`, `ft` and `n` agree on these
four fields after the call. -/
theorem reset_semantics (data : EXP_SMOOTH_DATA) (xt tv_sec : Int)
    (hk : 1 ≤ data.n_alpha)
    (hstale : tv_sec - data.last_update_time > data.reset_time) :
    ((time_series_smooth data xt tv_sec).n = 1 ∧
     (time_series_smooth data xt tv_sec).stx1 = Int.tdiv (clamp data.n_alpha xt + 0) 1 ∧
     (time_series_smooth data xt tv_sec).stx1 = clamp data.n_alpha xt ∧
     (time_series_smooth data xt tv_sec).stx2 = clamp data.n_alpha xt ∧
     (time_series_smooth data xt tv_sec).ft = clamp data.n_alpha xt) ∧
    ∀ stx1 stx2 ft n : Int,
      (time_series_smooth { data with stx1 := stx1, stx2 := stx2, ft := ft, n := n }
          xt tv_sec).n = (time_series_smooth data xt tv_sec).n ∧
      (time_series_smooth { data with stx1 := stx1, stx2 := stx2, ft := ft, n := n }
          xt tv_sec).stx1 = (time_series_smooth data xt tv_sec).stx1 ∧
      (time_series_smooth { data with stx1 := stx1, stx2 := stx2, ft := ft, n := n }
          xt tv_sec).stx2 = (time_series_smooth data xt tv_sec).stx2 ∧
      (time_series_smooth { data with stx1 := stx1, stx2 := stx2, ft := ft, n := n }
          xt tv_sec).ft = (time_series_smooth data xt tv_sec).ft := by
  have key : ∀ d : EXP_SMOOTH_DATA, d.n_alpha = data.n_alpha →
      tv_sec - d.last_update_time > d.reset_time →
      (time_series_smooth d xt tv_sec).n = 1 ∧
      (time_series_smooth d xt tv_sec).stx1 = clamp data.n_alpha xt ∧
      (time_series_smooth d xt tv_sec).stx2 = clamp data.n_alpha xt ∧
      (time_series_smooth d xt tv_sec).ft = clamp data.n_alpha xt := by
    intro d hd hs
    rw [time_series_smooth_stale d xt tv_sec (stale_eq_true hs), hd,
      check_xt_range_eq_clamp hk]
    exact update_first _ _ rfl hk (clamp_inInt32 hk xt)
  obtain ⟨a0, a1, a2, a3⟩ := key data rfl hstale
  refine ⟨⟨a0, ?_, a1, a2, a3⟩, ?_⟩
  · rw [a1, Int.add_zero, Int.tdiv_one]
  · intro s1 s2 f n
    obtain ⟨b0, b1, b2, b3⟩ :=
      key { data with stx1 := s1, stx2 := s2, ft := f, n := n } rfl hstale
    exact ⟨b0.trans a0.symm, b1.trans a1.symm, b2.trans a2.symm, b3.trans a3.symm⟩

/-- C4, witness: `reset_time = 5`, last update at 100, call at 106 with
observation 42 on a record with `stx1 = 900`, `stx2 = 800`, `n = 10`. -/
theorem reset_semantics_witness :
    (time_series_smooth
      { n_alpha := 10, stx1 := 900, stx2 := 800, n := 10, ft := 1000, reset_time := 5,
        last_update_time := 100 } 42 106).n = 1 ∧
    (time_series_smooth
      { n_alpha := 10, stx1 := 900, stx2 := 800, n := 10, ft := 1000, reset_time := 5,
        last_update_time := 100 } 42 106).ft = 42 := by
  have h := (reset_semantics
    { n_alpha := 10, stx1 := 900, stx2 := 800, n := 10, ft := 1000, reset_time := 5,
      last_update_time := 100 } 42 106 (by decide) (by decide)).1
  exact ⟨h.1, h.2.2.2.2.trans (by decide)⟩

/-- C5: for every record of C `int`s with window `k >= 1`, when
`tv_sec - last_update_time <= reset_time` (a gap equal to `reset_time` and a
negative gap included) the call does not clear the counter: it is `update` run
on the old `n`, and afterwards `n` is the old `n + 1` when the old
`n < n_alpha` and the old `n` otherwise.  The staleness check clears the
counter exactly when the gap is strictly greater than `reset_time`. -/
theorem no_reset_continuity (data : EXP_SMOOTH_DATA) (xt tv_sec : Int)
    (_hk : 1 ≤ data.n_alpha) (hkty : InInt32 data.n_alpha) (hnty : InInt32 data.n) :
    (tv_sec - data.last_update_time ≤ data.reset_time →
      time_series_smooth data xt tv_sec
        = update { data with last_update_time := wrap32 tv_sec }
            (check_xt_range data.n_alpha xt) ∧
      (time_series_smooth data xt tv_sec).n
        = if data.n < data.n_alpha then data.n + 1 else data.n) ∧
    (reset_check data tv_sec).n
      = (if tv_sec - data.last_update_time > data.reset_time then 0 else data.n) ∧
    (stale data tv_sec = true ↔ tv_sec - data.last_update_time > data.reset_time) := by
  refine ⟨?_, ?_, ?_⟩
  · intro hfresh
    have hs := stale_eq_false hfresh
    have hn : (reset_check data tv_sec).n = data.n := by
      rw [reset_check_n, hs]; rfl
    refine ⟨time_series_smooth_fresh data xt tv_sec hs, ?_⟩
    rw [time_series_smooth_n data xt tv_sec hkty (by rw [hn]; exact hnty), hn]
  · rw [reset_check_n]
    unfold stale
    by_cases h : tv_sec - data.last_update_time > data.reset_time
    · simp only [h, decide_True, if_true]
    · simp only [h, decide_False, if_false, Bool.false_eq_true]
  · unfold stale
    simp only [decide_eq_true_eq]

/-- C5, witness: `reset_time = 5`, last update at 100, `n = 3`, window 10.  A
call at 105 (gap equal to `reset_time`) and a call at 50 (clock set back) both
give `n = 4`; a call at 106 clears the counter. -/
theorem no_reset_continuity_witness :
    (time_series_smooth
      { n_alpha := 10, stx1 := 8, stx2 := 8, n := 3, ft := 8, reset_time := 5,
        last_update_time := 100 } 20 105).n = 4 ∧
    (time_series_smooth
      { n_alpha := 10, stx1 := 8, stx2 := 8, n := 3, ft := 8, reset_time := 5,
        last_update_time := 100 } 20 50).n = 4 ∧
    (reset_check
      { n_alpha := 10, stx1 := 8, stx2 := 8, n := 3, ft := 8, reset_time := 5,
        last_update_time := 100 } 106).n = 0 := by
  refine ⟨?_, ?_, ?_⟩
  · exact ((no_reset_continuity
      { n_alpha := 10, stx1 := 8, stx2 := 8, n := 3, ft := 8, reset_time := 5,
        last_update_time := 100 } 20 105 (by decide) (by decide) (by decide)).1
      (by decide)).2.trans
      (by decide)
  · exact ((no_reset_continuity
      { n_alpha := 10, stx1 := 8, stx2 := 8, n := 3, ft := 8, reset_time := 5,
        last_update_time := 100 } 20 50 (by decide) (by decide) (by decide)).1
      (by decide)).2.trans
      (by decide)
  · exact (no_reset_continuity
      { n_alpha := 10, stx1 := 8, stx2 := 8, n := 3, ft := 8, reset_time := 5,
        last_update_time := 100 } 20 106 (by decide) (by decide) (by decide)).2.1.trans
      (by decide)

/-- C6: with `n_alpha = 1` and a counter `n >= 0`, a call with a 32-bit
observation `x` at any time (stale or not, warm-up or steady state) leaves
`ft = x`, without clamping loss; so the forecasts of a run are its
observations. -/
theorem degenerate_window (data : EXP_SMOOTH_DATA) (hk : data.n_alpha = 1)
    (hn : 0 ≤ data.n) :
    (∀ xt tv_sec : Int, InInt32 xt → (time_series_smooth data xt tv_sec).ft = xt) ∧
    (∀ obs : List (Int × Int), (∀ p ∈ obs, InInt32 p.1) →
      forecasts data obs = obs.map Prod.fst) :=
  ⟨fun xt tv_sec hx => (step_window_one data xt tv_sec hk hn hx).1,
   fun obs hx => run_window_one obs data hk hn hx⟩

/-- C6, witness: window 1, observations 5, -3, 42 give forecasts 5, -3, 42. -/
theorem degenerate_window_witness :
    forecasts (init_data 1 5) [(5, 100), (-3, 101), (42, 102)] = [5, -3, 42] :=
  (degenerate_window (init_data 1 5) (by decide) (by decide)).2
    [(5, 100), (-3, 101), (42, 102)] (by decide)

/-- C7 (as amended): from the zero-initialised record with window `k >= 1`,
after `k` calls with the same observation `v` and no reset between the calls,
the forecast is `v` clamped to the band `[INT32_MIN / k, INT32_MAX / k]`,
hence `v` itself when `v` lies in the band; the counter has reached `k`. -/
theorem warmup_convergence (k r v : Int) (ts : List Int)
    (hk : 1 ≤ k) (hkty : k ≤ INT32_MAX) (hlen : (ts.length : Int) = k)
    (hquiet : no_reset_between (init_data k r) (ts.map fun t => (v, t)) = true) :
    (smooth_run (init_data k r) (ts.map fun t => (v, t))).ft = clamp k v ∧
    (Int.tdiv INT32_MIN k ≤ v → v ≤ Int.tdiv INT32_MAX k →
      (smooth_run (init_data k r) (ts.map fun t => (v, t))).ft = v) ∧
    (smooth_run (init_data k r) (ts.map fun t => (v, t))).n = k := by
  have hkty2 : InInt32 k := by
    unfold InInt32 INT32_MIN at *
    omega
  have hne : ts ≠ [] := by
    intro h
    rw [h] at hlen
    simp only [List.length_nil, Nat.cast_zero] at hlen
    omega
  have h := (const_run v ts (init_data k r) hk hkty2 (le_refl 0) (by show (0:Int) ≤ k; omega)
    (Or.inl rfl)).2.2 hne
  have hcount := run_n_from_zero (ts.map fun t => (v, t)) (init_data k r) hk hkty2 rfl hquiet
  refine ⟨h, fun h1 h2 => ?_, ?_⟩
  · rw [h]; exact clamp_of_mem h1 h2
  · rw [hcount, List.length_map, hlen]
    exact min_self _

/-- C7, witness: window 3, three calls with observation 7 at times 100, 101,
102 give forecast 7. -/
theorem warmup_convergence_witness :
    (smooth_run (init_data 3 5) [(7, 100), (7, 101), (7, 102)]).ft = 7 :=
  (warmup_convergence 3 5 7 [100, 101, 102] (by decide) (by decide) (by decide)
    (by decide)).2.1 (by decide) (by decide)

/-- C7, counterexample: window 2, two calls with observation `INT32_MAX` and
no gap.  The forecast is `INT32_MAX / 2 = 1073741823`, not `INT32_MAX`. -/
theorem warmup_convergence_clamped :
    no_reset_between (init_data 2 5) [(INT32_MAX, 0), (INT32_MAX, 0)] = true ∧
    (smooth_run (init_data 2 5) [(INT32_MAX, 0), (INT32_MAX, 0)]).ft = 1073741823 ∧
    (smooth_run (init_data 2 5) [(INT32_MAX, 0), (INT32_MAX, 0)]).ft ≠ INT32_MAX := by
  decide

/-- C8: in the steady state (`n >= n_alpha`, record not stale) with window
`k >= 1`, a record with `stx1 = stx2 = v` that absorbs a value `v` of the band
keeps `stx1 = stx2 = v` and forecasts `v`.  With window 10, eleven calls with
observation 100 from the zero-initialised record and no reset between them
give forecast 100 every time, and the eleventh call is the first to find
`n = 10`. -/
theorem constant_fixed_point (data : EXP_SMOOTH_DATA) (v tv_sec : Int)
    (hk : 1 ≤ data.n_alpha) (hkty : InInt32 data.n_alpha)
    (hlo : Int.tdiv INT32_MIN data.n_alpha ≤ v) (hhi : v ≤ Int.tdiv INT32_MAX data.n_alpha)
    (hn : data.n_alpha ≤ data.n)
    (hfresh : tv_sec - data.last_update_time ≤ data.reset_time)
    (h1 : data.stx1 = v) (h2 : data.stx2 = v) :
    ((time_series_smooth data v tv_sec).stx1 = v ∧
     (time_series_smooth data v tv_sec).stx2 = v ∧
     (time_series_smooth data v tv_sec).ft = v) ∧
    ∀ ts : List Int, ts.length = 11 →
      no_reset_between (init_data 10 5) (ts.map fun t => ((100:Int), t)) = true →
      forecasts (init_data 10 5) (ts.map fun t => ((100:Int), t)) = List.replicate 11 100 ∧
      (smooth_run (init_data 10 5) ((ts.map fun t => ((100:Int), t)).take 10)).n = 10 ∧
      ∀ j : Nat, j < 10 →
        (smooth_run (init_data 10 5) ((ts.map fun t => ((100:Int), t)).take j)).n < 10 := by
  constructor
  · rw [time_series_smooth_fresh data v tv_sec (stale_eq_false hfresh),
      check_xt_range_eq_clamp hk, clamp_of_mem hlo hhi]
    have hfit : steady_fits data.n_alpha v data.stx1 data.stx2 := by
      rw [h1, h2]; exact steady_fits_const hk hlo hhi
    obtain ⟨e1, e2, e3⟩ := update_steady_exact
      { data with last_update_time := wrap32 tv_sec } v hk hkty hn hfit
    have s1 : steady_stx1 data.n_alpha v data.stx1 = v := by
      rw [h1]; exact steady_stx1_const hk v
    have s2 : steady_stx2 data.n_alpha v data.stx2 = v := by
      rw [h2]; exact steady_stx2_const hk v
    refine ⟨e1.trans s1, e2.trans ?_, e3.trans ?_⟩
    · show steady_stx2 data.n_alpha (steady_stx1 data.n_alpha v data.stx1) data.stx2 = v
      rw [s1, s2]
    · show steady_forecast data.n_alpha (steady_stx1 data.n_alpha v data.stx1)
        (steady_stx2 data.n_alpha (steady_stx1 data.n_alpha v data.stx1) data.stx2) = v
      rw [s1, s2, steady_forecast_const]
  · intro ts hlen hq
    have hc : clamp 10 100 = 100 := by decide
    have h := (const_run 100 ts (init_data 10 5) (by decide) (by decide) (by decide)
      (by decide) (Or.inl rfl)).1
    rw [hlen] at h
    have hcount : ∀ j : Nat, j ≤ 11 →
        (smooth_run (init_data 10 5) ((ts.map fun t => ((100:Int), t)).take j)).n
          = min (j : Int) 10 := by
      intro j hj
      have := run_n_from_zero ((ts.map fun t => ((100:Int), t)).take j) (init_data 10 5)
        (by decide) (by decide) rfl (no_reset_between_take _ j _ hq)
      rw [this, List.length_take, List.length_map, hlen, Nat.min_eq_left hj]
      rfl
    refine ⟨by rw [h]; rfl, ?_, ?_⟩
    · rw [hcount 10 (by omega)]; rfl
    · intro j hj
      rw [hcount j (by omega)]
      omega

/-- C8, witness: window 10, `n = 10`, `stx1 = stx2 = 100`, observation 100 one
second after the last update; and the run of eleven observations 100 with no
gap. -/
theorem constant_fixed_point_witness :
    (time_series_smooth
      { n_alpha := 10, stx1 := 100, stx2 := 100, n := 10, ft := 100, reset_time := 5,
        last_update_time := 7 } 100 8).ft = 100 ∧
    (forecasts (init_data 10 5) (List.replicate 11 ((100:Int), (0:Int)))).get? 10
      = some 100 := by
  have h := constant_fixed_point
    { n_alpha := 10, stx1 := 100, stx2 := 100, n := 10, ft := 100, reset_time := 5,
      last_update_time := 7 } 100 8 (by decide) (by decide) (by decide) (by decide)
    (by decide) (by decide) rfl rfl
  refine ⟨h.1.2.2, ?_⟩
  have h2 := (h.2 (List.replicate 11 0) (by decide) (by decide)).1
  simp only [List.map_replicate] at h2
  rw [h2]
  decide

/-- C9: with window 10, from the zero-initialised record, for every run of
calls with observation `INT32_MAX` at any clock readings, every forecast is
`INT32_MAX / 10 = 214748364` and the exact result of every `int` operation
lies in the signed 32-bit range. -/
theorem clamp_at_extreme (r : Int) (ts : List Int) :
    forecasts (init_data 10 r) (ts.map fun t => (INT32_MAX, t))
      = List.replicate ts.length 214748364 ∧
    (∀ z ∈ run_ops (init_data 10 r) (ts.map fun t => (INT32_MAX, t)), InInt32 z) ∧
    Int.tdiv INT32_MAX 10 = 214748364 := by
  have h := const_run INT32_MAX ts (init_data 10 r) (show (1:Int) ≤ 10 by decide)
    (show InInt32 10 by decide) (show (0:Int) ≤ 0 by decide) (show (0:Int) ≤ 10 by decide)
    (Or.inl rfl)
  have hc : clamp (init_data 10 r).n_alpha INT32_MAX = 214748364 :=
    show clamp 10 INT32_MAX = 214748364 by decide
  rw [hc] at h
  exact ⟨h.1, h.2.1, by decide⟩

/-- C10: with window `k >= 1`, the predicate `0 <= n <= k` is preserved by
every call and `n >= 1` afterwards; from `n = 0` with no reset after the first
call, `n = min j k` after `j` calls, so the state before call `j + 1` is in
warm-up exactly when `j < k`; a steady-state record that is not stale stays in
the steady state, and a stale record restarts with `n = 1`. -/
theorem sample_count_invariant (data : EXP_SMOOTH_DATA)
    (hk : 1 ≤ data.n_alpha) (hkty : InInt32 data.n_alpha) :
    (∀ xt tv_sec : Int, 0 ≤ data.n → data.n ≤ data.n_alpha →
      1 ≤ (time_series_smooth data xt tv_sec).n ∧
      (time_series_smooth data xt tv_sec).n
        ≤ (time_series_smooth data xt tv_sec).n_alpha) ∧
    (∀ obs : List (Int × Int), data.n = 0 → no_reset_between data obs = true →
      (smooth_run data obs).n = min (obs.length : Int) data.n_alpha ∧
      ∀ j : Nat, j ≤ obs.length →
        ((smooth_run data (obs.take j)).n = min (j : Int) data.n_alpha ∧
         ((smooth_run data (obs.take j)).n < data.n_alpha ↔ (j : Int) < data.n_alpha))) ∧
    (∀ xt tv_sec : Int, data.n_alpha ≤ data.n → InInt32 data.n →
      tv_sec - data.last_update_time ≤ data.reset_time →
      (time_series_smooth data xt tv_sec).n = data.n) ∧
    (∀ xt tv_sec : Int, tv_sec - data.last_update_time > data.reset_time →
      (time_series_smooth data xt tv_sec).n = 1) := by
  refine ⟨?_, ?_, ?_, ?_⟩
  · intro xt tv_sec hn0 hnk
    have hn : (reset_check data tv_sec).n = 0 ∨ (reset_check data tv_sec).n = data.n := by
      rw [reset_check_n]
      split_ifs
      · exact Or.inl rfl
      · exact Or.inr rfl
    have hty : InInt32 (reset_check data tv_sec).n := by
      unfold InInt32 INT32_MIN INT32_MAX at *
      rcases hn with h | h <;> omega
    rw [time_series_smooth_n data xt tv_sec hkty hty,
      (time_series_smooth_frame data xt tv_sec).1]
    split_ifs <;> rcases hn with h | h <;> omega
  · intro obs hn hq
    refine ⟨run_n_from_zero obs data hk hkty hn hq, ?_⟩
    intro j hj
    have := run_n_from_zero (obs.take j) data hk hkty hn (no_reset_between_take obs j data hq)
    rw [List.length_take, Nat.min_eq_left hj] at this
    rw [this]
    exact ⟨rfl, by omega⟩
  · intro xt tv_sec hn hnty hfresh
    have h0 : (reset_check data tv_sec).n = data.n := by
      rw [reset_check_n, stale_eq_false hfresh]; rfl
    rw [time_series_smooth_n data xt tv_sec hkty (by rw [h0]; exact hnty), h0,
      if_neg (by omega)]
  · intro xt tv_sec hstale
    have h0 : (reset_check data tv_sec).n = 0 := by
      rw [reset_check_n, stale_eq_true hstale]; rfl
    rw [time_series_smooth_n data xt tv_sec hkty (by rw [h0]; decide), h0,
      if_pos (by omega)]
    rfl

/-- C10, witness: window 3, five calls one second apart from the
zero-initialised record: the counter ends at 3, and is 2 after two calls. -/
theorem sample_count_invariant_witness :
    (smooth_run (init_data 3 5) [(4, 10), (6, 11), (8, 12), (1, 13), (9, 14)]).n = 3 ∧
    (smooth_run (init_data 3 5)
      ([(4, 10), (6, 11), (8, 12), (1, 13), (9, 14)].take 2)).n = 2 := by
  have h := (sample_count_invariant (init_data 3 5) (by decide) (by decide)).2.1
    [(4, 10), (6, 11), (8, 12), (1, 13), (9, 14)] rfl (by decide)
  exact ⟨h.1.trans (by decide), ((h.2 2 (by decide)).1).trans (by decide)⟩

/-- C11: for every record of C `int`s with `n_alpha >= 1` and `n >= 0`, every
observation and every clock reading, each divisor of a call is at least 1, so
no division by zero (and no `INT32_MIN / -1`) occurs: the divisors are
`n_alpha`, the incremented `n`, and `n_alpha - 1`, the last one only on the
steady-state branch with `n_alpha > 1`. -/
theorem totality (data : EXP_SMOOTH_DATA) (tv_sec : Int)
    (hk : 1 ≤ data.n_alpha) (hkty : InInt32 data.n_alpha) (hn : 0 ≤ data.n) :
    (∀ d ∈ time_series_smooth_divisors data tv_sec, 1 ≤ d) ∧
    (∀ d ∈ time_series_smooth_divisors data tv_sec,
      d = data.n_alpha ∨ d = (reset_check data tv_sec).n + 1 ∨
      (d = data.n_alpha - 1 ∧ 1 < data.n_alpha ∧
        data.n_alpha ≤ (reset_check data tv_sec).n)) := by
  have hka := reset_check_n_alpha data tv_sec
  have hn1 : 0 ≤ (reset_check data tv_sec).n := by
    rw [reset_check_n]; split_ifs <;> omega
  have key : ∀ d ∈ time_series_smooth_divisors data tv_sec,
      d = data.n_alpha ∨
      (d = (reset_check data tv_sec).n + 1 ∧ (reset_check data tv_sec).n < data.n_alpha) ∨
      (d = data.n_alpha - 1 ∧ 1 < data.n_alpha ∧
        data.n_alpha ≤ (reset_check data tv_sec).n) := by
    intro d hd
    unfold time_series_smooth_divisors check_xt_range_divisors update_divisors at hd
    rw [hka] at hd
    rcases List.mem_append.mp hd with h | h
    · simp only [List.mem_cons, List.mem_singleton, List.not_mem_nil, or_false,
        or_self] at h
      exact Or.inl h
    · by_cases hge : (reset_check data tv_sec).n ≥ data.n_alpha
      · rw [if_pos hge] at h
        have hk1 : sub32 data.n_alpha 1 = data.n_alpha - 1 := by
          apply wrap32_eq
          unfold InInt32 INT32_MIN INT32_MAX at *
          omega
        by_cases hgt : data.n_alpha > 1
        · simp only [if_pos hgt, hk1, List.cons_append, List.nil_append, List.mem_cons,
            List.mem_singleton, List.not_mem_nil, or_false] at h
          rcases h with h | h | h
          · exact Or.inl h
          · exact Or.inl h
          · exact Or.inr (Or.inr ⟨h, hgt, hge⟩)
        · simp only [if_neg hgt, List.append_nil, List.mem_cons, List.mem_singleton,
            List.not_mem_nil, or_false, or_self] at h
          exact Or.inl h
      · rw [if_neg hge] at h
        have hn2 : add32 (reset_check data tv_sec).n 1 = (reset_check data tv_sec).n + 1 := by
          apply wrap32_eq
          unfold InInt32 INT32_MIN INT32_MAX at *
          omega
        simp only [hn2, List.mem_singleton] at h
        exact Or.inr (Or.inl ⟨h, by omega⟩)
  refine ⟨fun d hd => ?_, fun d hd => ?_⟩
  · rcases key d hd with h | ⟨h, -⟩ | ⟨h, h1, -⟩ <;> omega
  · rcases key d hd with h | ⟨h, -⟩ | h
    · exact Or.inl h
    · exact Or.inr (Or.inl h)
    · exact Or.inr (Or.inr h)

/-- C11, witness: window 10, `n = 10`, not stale: the divisors are 10, 10, 10,
10 and 9. -/
theorem totality_witness :
    time_series_smooth_divisors
      { n_alpha := 10, stx1 := 4, stx2 := 4, n := 10, ft := 4, reset_time := 5,
        last_update_time := 7 } 8 = [10, 10, 10, 10, 9] ∧
    ∀ d ∈ time_series_smooth_divisors
      { n_alpha := 10, stx1 := 4, stx2 := 4, n := 10, ft := 4, reset_time := 5,
        last_update_time := 7 } 8, 1 ≤ d :=
  ⟨by decide, (totality
    { n_alpha := 10, stx1 := 4, stx2 := 4, n := 10, ft := 4, reset_time := 5,
      last_update_time := 7 } 8 (by decide) (by decide) (by decide)).1⟩

/-- C12: a call leaves `n_alpha` and `reset_time` unchanged and stores the
clock reading in `last_update_time` on every path, narrowed to the `int`
field: the stored value is `tv_sec` itself exactly when `tv_sec` fits in 32
bits.  At the clock reading 2147483648 the stored value is -2147483648, and
the next call one second later finds the record stale. -/
theorem frame_effect (data : EXP_SMOOTH_DATA) (xt tv_sec : Int) :
    (time_series_smooth data xt tv_sec).n_alpha = data.n_alpha ∧
    (time_series_smooth data xt tv_sec).reset_time = data.reset_time ∧
    (time_series_smooth data xt tv_sec).last_update_time = wrap32 tv_sec ∧
    ((time_series_smooth data xt tv_sec).last_update_time = tv_sec ↔ InInt32 tv_sec) ∧
    (time_series_smooth (init_data 10 5) 7 2147483648).last_update_time = -2147483648 ∧
    stale (time_series_smooth (init_data 10 5) 7 2147483648) 2147483649 = true := by
  obtain ⟨a, b, c⟩ := time_series_smooth_frame data xt tv_sec
  refine ⟨a, b, c, ?_, by decide, by decide⟩
  rw [c]
  constructor
  · intro h
    rw [← h]
    exact wrap32_inInt32 tv_sec
  · exact wrap32_eq

/-- C13: the option loop stores the `long` of `strtol` in an `int` before it
tests it, and copies the `-w` name without a length check.  At the inputs
`-n -4294967295` and `-t -4294967291` the stored values are 1 and 5 and `main`
goes on to the read loop; `-n 4294967296 -t 1` stores 0 and exits; a `-w` name
of 100 characters overruns the buffer.  For file names that fit and values of
the `int` range: every `-n` value `<= 0` and every `-t` value `< 0`, wherever
it stands, makes `main` exit before the read loop; options that are all
accepted give the zeroed record with the last `-n` and `-t` values, the
defaults 10 and 5 without them.  In every case a record that reaches
`time_series_smooth` has `n_alpha >= 1` and `reset_time >= 0`, before the
first call and after any number of calls. -/
theorem configuration_validation :
    (main_setup [.n (-4294967295)] = .run (init_data 1 5) ∧
     main_setup [.t (-4294967291)] = .run (init_data 10 5) ∧
     main_setup [.n 4294967296, .t 1] = .exit ∧
     main_setup [.w 100, .n 0] = .undefined) ∧
    (∀ opts : List CmdOption, (∀ o ∈ opts, overruns o = false) →
      (∀ v : Int, CmdOption.n v ∈ opts → InInt32 v → v ≤ 0 →
        main_setup opts = .exit) ∧
      (∀ v : Int, CmdOption.t v ∈ opts → InInt32 v → v < 0 →
        main_setup opts = .exit) ∧
      ((∀ o ∈ opts, accepted o = true) →
        main_setup opts
          = .run (init_data (final_n_alpha opts) (final_reset_time opts)))) ∧
    (∀ len : Nat, overruns (.w len) = false ↔ len < 100) ∧
    (∀ v : Int, InInt32 v →
      (accepted (.n v) = true ↔ 1 ≤ v) ∧ (accepted (.t v) = true ↔ 1 ≤ v) ∧
      (accepted (.r v) = true ↔ 1 ≤ v) ∧
      (∀ opts : List CmdOption, final_n_alpha (opts ++ [.n v]) = v) ∧
      (∀ opts : List CmdOption, final_reset_time (opts ++ [.t v]) = v)) ∧
    (∀ a b : Int, InInt32 a → InInt32 b → 1 ≤ a → 1 ≤ b →
      main_setup [.n a, .t b] = .run (init_data a b)) ∧
    (∀ opts : List CmdOption, (∀ v : Int, CmdOption.n v ∉ opts) →
      final_n_alpha opts = 10) ∧
    (∀ opts : List CmdOption, (∀ v : Int, CmdOption.t v ∉ opts) →
      final_reset_time opts = 5) ∧
    (∀ (opts : List CmdOption) (data : EXP_SMOOTH_DATA), main_setup opts = .run data →
      1 ≤ data.n_alpha ∧ 0 ≤ data.reset_time ∧
      data = init_data data.n_alpha data.reset_time ∧
      ∀ obs : List (Int × Int),
        1 ≤ (smooth_run data obs).n_alpha ∧ 0 ≤ (smooth_run data obs).reset_time) := by
  refine ⟨by decide, ?_, ?_, ?_, ?_, ?_, ?_, ?_⟩
  · intro opts hfit
    have hov := not_any_overruns opts hfit
    have hreject : ∀ o ∈ opts, accepted o = false → main_setup opts = .exit := by
      intro o ho hacc
      have hall : opts.all accepted = false := by
        rw [Bool.eq_false_iff]
        intro h
        have := List.all_eq_true.mp h o ho
        rw [hacc] at this
        cases this
      rw [main_setup_eq, hov, hall]
      rfl
    refine ⟨fun v hv hty hle => hreject _ hv ?_, fun v hv hty hlt => hreject _ hv ?_,
      fun hall => ?_⟩
    · simp only [accepted, wrap32_eq hty, decide_eq_false_iff_not]
      omega
    · simp only [accepted, wrap32_eq hty, decide_eq_false_iff_not]
      omega
    · rw [main_setup_eq, hov, List.all_eq_true.mpr hall]
      rfl
  · intro len
    simp only [overruns, OUT_FILE_NAME_SIZE, decide_eq_false_iff_not]
    omega
  · intro v hty
    refine ⟨?_, ?_, ?_, fun opts => ?_, fun opts => ?_⟩
    · simp only [accepted, wrap32_eq hty, decide_eq_true_eq]
    · simp only [accepted, wrap32_eq hty, decide_eq_true_eq]
    · simp only [accepted, wrap32_eq hty, decide_eq_true_eq]
    · unfold final_n_alpha
      rw [List.foldl_append]
      exact wrap32_eq hty
    · unfold final_reset_time
      rw [List.foldl_append]
      exact wrap32_eq hty
  · intro a b hta htb ha hb
    rw [main_setup_eq]
    have e1 : accepted (.n a) = true := by
      simp only [accepted, wrap32_eq hta, decide_eq_true_eq]; exact ha
    have e2 : accepted (.t b) = true := by
      simp only [accepted, wrap32_eq htb, decide_eq_true_eq]; exact hb
    have e3 : final_n_alpha [.n a, .t b] = a := wrap32_eq hta
    have e4 : final_reset_time [.n a, .t b] = b := wrap32_eq htb
    simp only [List.any_cons, List.any_nil, List.all_cons, List.all_nil, overruns, e1, e2,
      e3, e4, Bool.or_self, Bool.and_self, Bool.false_eq_true, if_false, if_true]
  · intro opts h
    exact next_n_alpha_default opts N_ALPHA h
  · intro opts h
    exact next_reset_time_default opts RESET_TIME h
  · intro opts data h
    rw [main_setup_eq] at h
    by_cases hov : opts.any overruns = true
    · rw [if_pos hov] at h
      cases h
    · rw [if_neg hov] at h
      by_cases hall : opts.all accepted = true
      · rw [if_pos hall] at h
        have hd : init_data (final_n_alpha opts) (final_reset_time opts) = data :=
          Outcome.run.inj h
        have p1 := next_n_alpha_pos opts N_ALPHA (by decide) hall
        have p2 := next_reset_time_pos opts RESET_TIME (by decide) hall
        have q1 : 1 ≤ data.n_alpha := by rw [← hd]; exact p1
        have q2 : 1 ≤ data.reset_time := by rw [← hd]; exact p2
        refine ⟨q1, by omega, by rw [← hd]; rfl, fun obs => ?_⟩
        obtain ⟨e1, e2⟩ := smooth_run_frame obs data
        rw [e1, e2]
        exact ⟨q1, by omega⟩
      · rw [if_neg hall] at h
        cases h

/-- C13, witness: with file names that fit, `-n 0`, `-n -3` and `-t -1` make
`main` exit, and `-w name -n 4 -t 9` starts the read loop with window 4 and
reset interval 9. -/
theorem configuration_validation_witness :
    main_setup [.n 0] = .exit ∧ main_setup [.w 20, .n (-3), .n 5] = .exit ∧
    main_setup [.t (-1)] = .exit ∧
    main_setup [.w 20, .n 4, .t 9] = .run (init_data 4 9) :=
  ⟨(configuration_validation.2.1 [.n 0] (by decide)).1 0 (by decide) (by decide)
      (by decide),
   (configuration_validation.2.1 [.w 20, .n (-3), .n 5] (by decide)).1 (-3) (by decide)
      (by decide) (by decide),
   (configuration_validation.2.1 [.t (-1)] (by decide)).2.1 (-1) (by decide) (by decide)
      (by decide),
   ((configuration_validation.2.1 [.w 20, .n 4, .t 9] (by decide)).2.2
      (by decide)).trans (by decide)⟩

/-- C14: for every record of C `int`s with window `k >= 1`, `0 <= n <= k` and
`stx1`, `stx2` in the band `[INT32_MIN / k, INT32_MAX / k]`, every observation
and every clock reading, the exact result of each operation of the `stx1` and
`stx2` assignments lies in the signed 32-bit range, and the new `stx1` and
`stx2` lie in the band again. -/
theorem band_invariant (data : EXP_SMOOTH_DATA) (xt tv_sec : Int)
    (hk : 1 ≤ data.n_alpha) (hkty : InInt32 data.n_alpha)
    (hn0 : 0 ≤ data.n) (_hnk : data.n ≤ data.n_alpha)
    (h1 : InBand data.n_alpha data.stx1) (h2 : InBand data.n_alpha data.stx2) :
    (∀ z ∈ update_stx_ops (reset_check data tv_sec) (check_xt_range data.n_alpha xt),
      InInt32 z) ∧
    InBand data.n_alpha (time_series_smooth data xt tv_sec).stx1 ∧
    InBand data.n_alpha (time_series_smooth data xt tv_sec).stx2 := by
  have hka := reset_check_n_alpha data tv_sec
  have hn1 : 0 ≤ (reset_check data tv_sec).n := by
    rw [reset_check_n]; split_ifs <;> omega
  have h := band_update (reset_check data tv_sec) (check_xt_range data.n_alpha xt)
    (by rw [hka]; exact hk) (by rw [hka]; exact hkty) hn1
    (by rw [hka, check_xt_range_eq_clamp hk]; exact clamp_inBand hk xt)
    (by rw [hka, reset_check_stx1]; exact h1) (by rw [hka, reset_check_stx2]; exact h2)
  rw [hka] at h
  exact ⟨h.1, h.2.1, h.2.2.1⟩

/-- C14, witness: window 10, `n = 10`, `stx1 = 214748364`, `stx2 = -214748364`
(the ends of the band), observation `INT32_MIN`. -/
theorem band_invariant_witness :
    InBand 10 (time_series_smooth
      { n_alpha := 10, stx1 := 214748364, stx2 := -214748364, n := 10, ft := 0,
        reset_time := 5, last_update_time := 7 } INT32_MIN 8).stx1 ∧
    InBand 10 (time_series_smooth
      { n_alpha := 10, stx1 := 214748364, stx2 := -214748364, n := 10, ft := 0,
        reset_time := 5, last_update_time := 7 } INT32_MIN 8).stx2 :=
  (band_invariant
    { n_alpha := 10, stx1 := 214748364, stx2 := -214748364, n := 10, ft := 0,
      reset_time := 5, last_update_time := 7 } INT32_MIN 8 (by decide) (by decide)
    (by decide) (by decide) (by decide) (by decide)).2

/-- C15: for every window `k >= 1` that is a C `int`, from the zero-initialised
record, for every finite sequence of observations and clock readings, the
exact result of every `int` operation of every call (those of the forecast
expression `2*stx1 - stx2 + (stx1 - stx2)/(k-1)` and the forecast itself
included) lies in the signed 32-bit range, and the records and forecasts
computed in 32-bit arithmetic equal those computed over the integers. -/
theorem forecast_no_overflow (k r : Int) (obs : List (Int × Int))
    (hk : 1 ≤ k) (hkty : k ≤ INT32_MAX) :
    (∀ z ∈ run_ops (init_data k r) obs, InInt32 z) ∧
    smooth_run (init_data k r) obs = smooth_run_exact (init_data k r) obs ∧
    forecasts (init_data k r) obs = forecasts_exact (init_data k r) obs ∧
    (∀ xt tv_sec : Int,
      ∀ z ∈ update_ft_ops (reset_check (smooth_run (init_data k r) obs) tv_sec)
          (check_xt_range k xt), InInt32 z) := by
  have hkty2 : InInt32 k := by
    unfold InInt32 INT32_MIN at *
    omega
  obtain ⟨a, b, c, d⟩ := inv_run hk hkty2 obs (init_data k r) (inv_init hk r)
  refine ⟨b, c, d, fun xt tv_sec z hz => ?_⟩
  have hc : InBand k (check_xt_range k xt) := by
    rw [check_xt_range_eq_clamp hk]
    exact clamp_inBand hk xt
  have h := (inv_update (reset_check (smooth_run (init_data k r) obs) tv_sec)
    (check_xt_range k xt) hk hkty2 (inv_reset_check a tv_sec) hc).2.1
  rw [update_ops_split] at h
  exact h z (List.mem_append_right _ hz)

/-- C15, witness: window 2, the observations `INT32_MIN`, `INT32_MIN`,
`INT32_MAX`, `INT32_MAX` one second apart: the forecasts are -1073741824,
-1073741824, 1073741824 and 1610612733, computed without overflow. -/
theorem forecast_no_overflow_witness :
    forecasts (init_data 2 5)
      [(INT32_MIN, 10), (INT32_MIN, 11), (INT32_MAX, 12), (INT32_MAX, 13)]
      = [-1073741824, -1073741824, 1073741824, 1610612733] ∧
    ∀ z ∈ run_ops (init_data 2 5)
      [(INT32_MIN, 10), (INT32_MIN, 11), (INT32_MAX, 12), (INT32_MAX, 13)], InInt32 z :=
  ⟨by decide, (forecast_no_overflow 2 5
    [(INT32_MIN, 10), (INT32_MIN, 11), (INT32_MAX, 12), (INT32_MAX, 13)]
    (by decide) (by decide)).1⟩

/-- C16 (as amended): for every window `k >= 1` that is a C `int`, from the
zero-initialised record, after every call of every run `stx1` and `stx2` lie in
the band `[INT32_MIN / k, INT32_MAX / k]`; the forecast is the new `stx1`, hence
in the band, after every warm-up call and whenever `k = 1`; after a
steady-state call it is `2*stx1 - stx2 + (stx1 - stx2)/(k-1)` computed without
overflow, a value of the signed 32-bit range. -/
theorem forecast_band (k r : Int) (obs : List (Int × Int)) (xt tv_sec : Int)
    (hk : 1 ≤ k) (hkty : k ≤ INT32_MAX) :
    InBand k (time_series_smooth (smooth_run (init_data k r) obs) xt tv_sec).stx1 ∧
    InBand k (time_series_smooth (smooth_run (init_data k r) obs) xt tv_sec).stx2 ∧
    ((reset_check (smooth_run (init_data k r) obs) tv_sec).n < k →
      (time_series_smooth (smooth_run (init_data k r) obs) xt tv_sec).ft
        = (time_series_smooth (smooth_run (init_data k r) obs) xt tv_sec).stx1 ∧
      InBand k (time_series_smooth (smooth_run (init_data k r) obs) xt tv_sec).ft) ∧
    (k = 1 →
      InBand k (time_series_smooth (smooth_run (init_data k r) obs) xt tv_sec).ft) ∧
    (k ≤ (reset_check (smooth_run (init_data k r) obs) tv_sec).n →
      (time_series_smooth (smooth_run (init_data k r) obs) xt tv_sec).ft
        = steady_forecast k
            (time_series_smooth (smooth_run (init_data k r) obs) xt tv_sec).stx1
            (time_series_smooth (smooth_run (init_data k r) obs) xt tv_sec).stx2 ∧
      InInt32 (steady_forecast k
            (time_series_smooth (smooth_run (init_data k r) obs) xt tv_sec).stx1
            (time_series_smooth (smooth_run (init_data k r) obs) xt tv_sec).stx2)) := by
  have hkty2 : InInt32 k := by
    unfold InInt32 INT32_MIN at *
    omega
  obtain ⟨a, -⟩ := inv_run hk hkty2 obs (init_data k r) (inv_init hk r)
  have hka : (smooth_run (init_data k r) obs).n_alpha = k := a.1
  have hc : InBand k (check_xt_range (smooth_run (init_data k r) obs).n_alpha xt) := by
    rw [hka, check_xt_range_eq_clamp hk]
    exact clamp_inBand hk xt
  have hi := inv_reset_check a tv_sec
  obtain ⟨b, -⟩ := inv_update _ _ hk hkty2 hi hc
  obtain ⟨f1, f2⟩ := inv_update_ft _ _ hk hkty2 hi hc
  have b1 : InBand k (time_series_smooth (smooth_run (init_data k r) obs) xt tv_sec).stx1 :=
    b.2.2.2.1
  have b2 : InBand k (time_series_smooth (smooth_run (init_data k r) obs) xt tv_sec).stx2 :=
    b.2.2.2.2.1
  have w : (reset_check (smooth_run (init_data k r) obs) tv_sec).n < k →
      (time_series_smooth (smooth_run (init_data k r) obs) xt tv_sec).ft
        = (time_series_smooth (smooth_run (init_data k r) obs) xt tv_sec).stx1 := f1
  have s : k ≤ (reset_check (smooth_run (init_data k r) obs) tv_sec).n →
      (time_series_smooth (smooth_run (init_data k r) obs) xt tv_sec).ft
        = steady_forecast k
            (time_series_smooth (smooth_run (init_data k r) obs) xt tv_sec).stx1
            (time_series_smooth (smooth_run (init_data k r) obs) xt tv_sec).stx2 ∧
      InInt32 (steady_forecast k
            (time_series_smooth (smooth_run (init_data k r) obs) xt tv_sec).stx1
            (time_series_smooth (smooth_run (init_data k r) obs) xt tv_sec).stx2) := f2
  refine ⟨b1, b2, fun hlt => ⟨w hlt, by rw [w hlt]; exact b1⟩, fun h1 => ?_, s⟩
  rcases Int.lt_or_le (reset_check (smooth_run (init_data k r) obs) tv_sec).n k with h | h
  · rw [w h]; exact b1
  · rw [(s h).1]
    unfold steady_forecast
    rw [if_neg (by omega)]
    exact b1

/-- C16, witness: window 10, the third call of a run one second apart is a
warm-up call and its forecast 50 lies in the band. -/
theorem forecast_band_witness :
    (time_series_smooth (smooth_run (init_data 10 5) [(30, 10), (60, 11)]) 60 12).ft = 50 ∧
    InBand 10 (time_series_smooth (smooth_run (init_data 10 5) [(30, 10), (60, 11)])
      60 12).ft :=
  ⟨by decide, ((forecast_band 10 5 [(30, 10), (60, 11)] 60 12 (by decide)
    (by decide)).2.2.1 (by decide)).2⟩

/-- C16, counterexample: window 2, the observations `INT32_MIN`, `INT32_MIN`,
`INT32_MAX` one second apart.  The third forecast is 1073741824, above the
upper end 1073741823 of the band. -/
theorem forecast_band_exceeded :
    (smooth_run (init_data 2 5) [(INT32_MIN, 10), (INT32_MIN, 11), (INT32_MAX, 12)]).ft
      = 1073741824 ∧
    Int.tdiv INT32_MAX 2 = 1073741823 ∧
    ¬ InBand 2
      (smooth_run (init_data 2 5) [(INT32_MIN, 10), (INT32_MIN, 11), (INT32_MAX, 12)]).ft := by
  decide

/-- C17 (as amended): for every window `k >= 1` that is a C `int` and every
`j` with `1 <= j <= k`, from a record with `n = 0` and with no reset after the
first call, the forecast after call `j` is the truncating running average
`a_1 = c_1`, `a_i = (c_i + (i-1) * a_(i-1)) / i` of the clamped observations;
`j` times it differs from their sum by at most `j * (j-1) / 2`, and for
`j <= 2` it is their sum divided by `j` with truncation. -/
theorem warmup_running_average (data : EXP_SMOOTH_DATA) (obs : List (Int × Int))
    (hk : 1 ≤ data.n_alpha) (hkty : InInt32 data.n_alpha) (hn : data.n = 0)
    (hne : obs ≠ []) (hlen : (obs.length : Int) ≤ data.n_alpha)
    (hq : no_reset_between data obs = true) :
    (smooth_run data obs).ft = running_avg (clamped data.n_alpha obs) ∧
    -((obs.length : Int) * (obs.length - 1))
      ≤ 2 * (obs.length * (smooth_run data obs).ft - (clamped data.n_alpha obs).sum) ∧
    2 * (obs.length * (smooth_run data obs).ft - (clamped data.n_alpha obs).sum)
      ≤ (obs.length : Int) * (obs.length - 1) ∧
    (obs.length ≤ 2 →
      (smooth_run data obs).ft
        = Int.tdiv (clamped data.n_alpha obs).sum obs.length) := by
  rcases obs with _ | ⟨⟨xt, t⟩, rest⟩
  · exact absurd rfl hne
  · simp only [no_reset_between] at hq
    simp only [List.length_cons, Nat.cast_add, Nat.cast_one] at hlen
    have h0 : (reset_check data t).n = 0 := by
      rw [reset_check_n, hn]; split_ifs <;> rfl
    obtain ⟨e1, e3, e0, hi⟩ := first_step data xt t hk rfl h0
    obtain ⟨w1, w2⟩ := warmup_run hk hkty rest (time_series_smooth data xt t) hi
      (by rw [e0]; omega) hq
    rw [e0, e1] at w1
    have hft : (smooth_run data ((xt, t) :: rest)).ft
        = running_avg (clamped data.n_alpha ((xt, t) :: rest)) := by
      simp only [smooth_run, running_avg, clamped, List.map_cons, running_avg_from]
      rw [Int.zero_mul, Int.add_zero, Int.zero_add, Int.tdiv_one]
      rcases rest with _ | ⟨q, rest2⟩
      · simp only [smooth_run, List.map_nil, running_avg_from]
        exact e3
      · rw [w2 (by simp)]
        exact w1
    have herr := running_avg_error (clamped data.n_alpha ((xt, t) :: rest)) 0 0 0
      (le_refl 0) (by decide) (by decide)
    simp only [Int.zero_add] at herr
    have hl : (clamped data.n_alpha ((xt, t) :: rest)).length = ((xt, t) :: rest).length := by
      unfold clamped
      rw [List.length_map]
    rw [hl] at herr
    change _ ≤ 2 * (_ * running_avg _ - _) ∧ 2 * (_ * running_avg _ - _) ≤ _ at herr
    rw [← hft] at herr
    refine ⟨hft, herr.1, herr.2, fun h2 => ?_⟩
    rw [hft]
    rcases rest with _ | ⟨q, rest2⟩
    · simp [running_avg, clamped, running_avg_from]
    · rcases rest2 with _ | ⟨q2, rest3⟩
      · simp only [running_avg, clamped, List.map_cons, List.map_nil, running_avg_from,
          List.sum_cons, List.sum_nil, List.length_cons, List.length_nil]
        norm_num
        rw [add_comm]
      · simp only [List.length_cons] at h2
        omega

/-- C17, witness: window 10, observations 10 and 21: the second forecast is
`(10 + 21) / 2 = 15`. -/
theorem warmup_running_average_witness :
    (smooth_run (init_data 10 5) [(10, 100), (21, 101)]).ft = 15 ∧
    Int.tdiv (clamped 10 [(10, 100), (21, 101)]).sum 2 = 15 := by
  have h := warmup_running_average (init_data 10 5) [(10, 100), (21, 101)] (by decide)
    (by decide) rfl (by decide) (by decide) (by decide)
  exact ⟨h.1.trans (by decide), by decide⟩

/-- C17, counterexample: window 3, observations 1, 2, 3 one second apart.  The
third forecast is `(3 + 2 * 1) / 3 = 1`, the mean is `(1 + 2 + 3) / 3 = 2`. -/
theorem warmup_running_average_truncates :
    no_reset_between (init_data 3 5) [(1, 10), (2, 11), (3, 12)] = true ∧
    (smooth_run (init_data 3 5) [(1, 10), (2, 11), (3, 12)]).ft = 1 ∧
    Int.tdiv (clamped 3 [(1, 10), (2, 11), (3, 12)]).sum 3 = 2 ∧
    (smooth_run (init_data 3 5) [(1, 10), (2, 11), (3, 12)]).ft
      ≠ Int.tdiv (clamped 3 [(1, 10), (2, 11), (3, 12)]).sum 3 := by
  decide

/-- C18: for every window `k >= 1` that is a C `int`, from the zero-initialised
record, after any non-empty run (any clock readings) `stx1` and `stx2` lie in
every interval `[L, U]` that contains the clamped observations of the run, so
between the smallest and the largest of them; and at every further call the
new `stx1` lies between the clamped observation and the old `stx1`, and the
new `stx2` between the new `stx1` and the old `stx2`. -/
theorem statistics_bounded (k r : Int) (obs : List (Int × Int))
    (hk : 1 ≤ k) (hkty : k ≤ INT32_MAX) :
    (∀ L U : Int, (∀ p ∈ obs, L ≤ clamp k p.1 ∧ clamp k p.1 ≤ U) → obs ≠ [] →
      L ≤ (smooth_run (init_data k r) obs).stx1 ∧
      (smooth_run (init_data k r) obs).stx1 ≤ U ∧
      L ≤ (smooth_run (init_data k r) obs).stx2 ∧
      (smooth_run (init_data k r) obs).stx2 ≤ U) ∧
    (∀ xt tv_sec : Int,
      (min (clamp k xt) (smooth_run (init_data k r) obs).stx1
          ≤ (time_series_smooth (smooth_run (init_data k r) obs) xt tv_sec).stx1 ∧
        (time_series_smooth (smooth_run (init_data k r) obs) xt tv_sec).stx1
          ≤ max (clamp k xt) (smooth_run (init_data k r) obs).stx1) ∧
      (min (time_series_smooth (smooth_run (init_data k r) obs) xt tv_sec).stx1
            (smooth_run (init_data k r) obs).stx2
          ≤ (time_series_smooth (smooth_run (init_data k r) obs) xt tv_sec).stx2 ∧
        (time_series_smooth (smooth_run (init_data k r) obs) xt tv_sec).stx2
          ≤ max (time_series_smooth (smooth_run (init_data k r) obs) xt tv_sec).stx1
              (smooth_run (init_data k r) obs).stx2)) := by
  have hkty2 : InInt32 k := by
    unfold InInt32 INT32_MIN at *
    omega
  refine ⟨fun L U hall hne => ?_, fun xt tv_sec => ?_⟩
  · exact between_run hk hkty2 L U obs (init_data k r) (inv_init hk r) (Or.inl rfl) hall hne
  · obtain ⟨a, -⟩ := inv_run hk hkty2 obs (init_data k r) (inv_init hk r)
    obtain ⟨b1, b2, -⟩ := between_step (smooth_run (init_data k r) obs) xt tv_sec hk hkty2 a
    exact ⟨b1, b2⟩

/-- C18, witness: window 3, observations 40, -7, 12, 30, the last one after a
gap of 100 seconds: the statistics lie between -7 and 40. -/
theorem statistics_bounded_witness :
    -7 ≤ (smooth_run (init_data 3 5) [(40, 10), (-7, 11), (12, 12), (30, 112)]).stx1 ∧
    (smooth_run (init_data 3 5) [(40, 10), (-7, 11), (12, 12), (30, 112)]).stx1 ≤ 40 ∧
    -7 ≤ (smooth_run (init_data 3 5) [(40, 10), (-7, 11), (12, 12), (30, 112)]).stx2 ∧
    (smooth_run (init_data 3 5) [(40, 10), (-7, 11), (12, 12), (30, 112)]).stx2 ≤ 40 :=
  (statistics_bounded 3 5 [(40, 10), (-7, 11), (12, 12), (30, 112)] (by decide)
    (by decide)).1 (-7) 40 (by decide) (by decide)

/-- C19 (as amended): for every record of C `int`s with window `k >= 1`,
`n >= 0`, `|stx1|`, `|stx2|` and `|x|` at most `INT32_MAX / k`, and every
clock reading, provided that for `k = 2` and `k = 3` in the steady state the
forecast expression fits in 32 bits on the new statistics and on their
negations, a call with `-x` on the record with `stx1`, `stx2` and `ft` negated
yields the negated `stx1`, `stx2` and `ft` of the call with `x` on the
original record, and the same `n` and `last_update_time`. -/
theorem sign_symmetry (data : EXP_SMOOTH_DATA) (xt tv_sec : Int)
    (hk : 1 ≤ data.n_alpha) (hkty : InInt32 data.n_alpha) (hn0 : 0 ≤ data.n)
    (h1 : -Int.tdiv INT32_MAX data.n_alpha ≤ data.stx1 ∧
      data.stx1 ≤ Int.tdiv INT32_MAX data.n_alpha)
    (h2 : -Int.tdiv INT32_MAX data.n_alpha ≤ data.stx2 ∧
      data.stx2 ≤ Int.tdiv INT32_MAX data.n_alpha)
    (hx : -Int.tdiv INT32_MAX data.n_alpha ≤ xt ∧ xt ≤ Int.tdiv INT32_MAX data.n_alpha)
    (hfit : data.n_alpha = 2 ∨ data.n_alpha = 3 →
      data.n_alpha ≤ (reset_check data tv_sec).n →
      forecast_fits data.n_alpha (steady_stx1 data.n_alpha xt data.stx1)
        (steady_stx2 data.n_alpha (steady_stx1 data.n_alpha xt data.stx1) data.stx2) ∧
      forecast_fits data.n_alpha (-steady_stx1 data.n_alpha xt data.stx1)
        (-steady_stx2 data.n_alpha (steady_stx1 data.n_alpha xt data.stx1) data.stx2)) :
    (time_series_smooth (negate data) (-xt) tv_sec).stx1
      = -(time_series_smooth data xt tv_sec).stx1 ∧
    (time_series_smooth (negate data) (-xt) tv_sec).stx2
      = -(time_series_smooth data xt tv_sec).stx2 ∧
    (time_series_smooth (negate data) (-xt) tv_sec).ft
      = -(time_series_smooth data xt tv_sec).ft ∧
    (time_series_smooth (negate data) (-xt) tv_sec).n
      = (time_series_smooth data xt tv_sec).n ∧
    (time_series_smooth (negate data) (-xt) tv_sec).last_update_time
      = (time_series_smooth data xt tv_sec).last_update_time := by
  obtain ⟨r0, r1, r2, r3⟩ := reset_check_negate data tv_sec
  have hka := reset_check_n_alpha data tv_sec
  have bx := sym_inBand hk hx.1 hx.2
  have b1 := sym_inBand hk h1.1 h1.2
  have b2 := sym_inBand hk h2.1 h2.2
  have hn1 : 0 ≤ (reset_check data tv_sec).n := by
    rw [reset_check_n]; split_ifs <;> omega
  have ec : check_xt_range data.n_alpha xt = xt := by
    rw [check_xt_range_eq_clamp hk]; exact clamp_of_mem bx.1.1 bx.1.2
  have ec' : check_xt_range (negate data).n_alpha (-xt) = -xt := by
    show check_xt_range data.n_alpha (-xt) = -xt
    rw [check_xt_range_eq_clamp hk]; exact clamp_of_mem bx.2.1 bx.2.2
  have h := update_neg (reset_check data tv_sec) (reset_check (negate data) tv_sec) xt
    (by rw [hka]; exact hk) (by rw [hka]; exact hkty) hn1 (by rw [r1, hka]) r0
    (by rw [r2, reset_check_stx1]) (by rw [r3, reset_check_stx2])
    (by rw [hka]; exact bx) (by rw [hka, reset_check_stx1]; exact b1)
    (by rw [hka, reset_check_stx2]; exact b2)
    (by
      rw [hka, reset_check_stx1, reset_check_stx2]
      intro hge hgt
      by_cases h23 : data.n_alpha = 2 ∨ data.n_alpha = 3
      · exact hfit h23 hge
      · obtain ⟨-, p1, p2⟩ := band_steady hk bx.1 b1.1 b2.1
        obtain ⟨-, q1, q2⟩ := band_steady hk bx.2 b1.2 b2.2
        rw [steady_stx1_neg, steady_stx2_neg] at q2
        rw [steady_stx1_neg] at q1
        have h4 : 4 ≤ data.n_alpha := by omega
        exact ⟨forecast_fits_large h4 p1 p2, forecast_fits_large h4 q1 q2⟩)
  unfold time_series_smooth
  rw [ec, ec']
  refine ⟨h.1, h.2.1, h.2.2.1, h.2.2.2, ?_⟩
  have l1 := (time_series_smooth_frame (negate data) (-xt) tv_sec).2.2
  have l2 := (time_series_smooth_frame data xt tv_sec).2.2
  unfold time_series_smooth at l1 l2
  rw [ec'] at l1
  rw [ec] at l2
  rw [l1, l2]

/-- C19, witness: window 10 in the steady state, `stx1 = 100`, `stx2 = 90`,
observation 200, and the negated call. -/
theorem sign_symmetry_witness :
    (time_series_smooth
      { n_alpha := 10, stx1 := -100, stx2 := -90, n := 10, ft := -95, reset_time := 5,
        last_update_time := 7 } (-200) 8).ft = -130 ∧
    (time_series_smooth
      { n_alpha := 10, stx1 := 100, stx2 := 90, n := 10, ft := 95, reset_time := 5,
        last_update_time := 7 } 200 8).ft = 130 := by
  have h := sign_symmetry
    { n_alpha := 10, stx1 := 100, stx2 := 90, n := 10, ft := 95, reset_time := 5,
      last_update_time := 7 } 200 8 (by decide) (by decide) (by decide) (by decide)
    (by decide) (by decide) (by decide)
  have e : (time_series_smooth
      { n_alpha := 10, stx1 := 100, stx2 := 90, n := 10, ft := 95, reset_time := 5,
        last_update_time := 7 } 200 8).ft = 130 := by decide
  refine ⟨?_, e⟩
  have h3 := h.2.2.1
  rw [e] at h3
  exact h3

/-- C19, counterexample: window 2 in the steady state, `stx1 = 715827882`,
`stx2 = -715827884`, observation 715827882, all within `INT32_MAX / 2`.  The
forecast expression reaches `2^31`; the stored forecast is -2147483648 on the
original record and also -2147483648 on the negated one, so the second is not
the negation of the first. -/
theorem sign_symmetry_overflow :
    (715827882 : Int) ≤ Int.tdiv INT32_MAX 2 ∧ (715827884 : Int) ≤ Int.tdiv INT32_MAX 2 ∧
    steady_forecast 2 (steady_stx1 2 715827882 715827882)
      (steady_stx2 2 (steady_stx1 2 715827882 715827882) (-715827884)) = 2147483648 ∧
    (time_series_smooth
      { n_alpha := 2, stx1 := 715827882, stx2 := -715827884, n := 2, ft := 0,
        reset_time := 5, last_update_time := 7 } 715827882 8).ft = -2147483648 ∧
    (time_series_smooth
      (negate
        { n_alpha := 2, stx1 := 715827882, stx2 := -715827884, n := 2, ft := 0,
          reset_time := 5, last_update_time := 7 }) (-715827882) 8).ft = -2147483648 ∧
    (time_series_smooth
      (negate
        { n_alpha := 2, stx1 := 715827882, stx2 := -715827884, n := 2, ft := 0,
          reset_time := 5, last_update_time := 7 }) (-715827882) 8).ft
      ≠ -(time_series_smooth
        { n_alpha := 2, stx1 := 715827882, stx2 := -715827884, n := 2, ft := 0,
          reset_time := 5, last_update_time := 7 } 715827882 8).ft := by
  decide

end TimeSeriesSmooth
